import Mathlib

/-!
Verification of the PE32+ parser in src/platform/src/portable_executable.cpp.

The image buffer is modelled as a list of natural numbers; each read takes the
byte modulo 256, mirroring the uint8_t buffer of the source.  Structure reads
mirror Parser::read_struct: a read of S bytes at offset O succeeds exactly when
O + S <= buffer.size, and decodes fields little-endian at the offsets of the
canonical on-disk PE layout.  C++ exceptions become the Except monad.
-/

set_option maxRecDepth 100000

deriving instance DecidableEq for Except

namespace PE

abbrev Buffer := List Nat

/-- Error kinds thrown by the source (each std::runtime_error message). -/
inductive PEError where
  | notPE
  | badNtSignature
  | unsupportedMachine
  | unsupportedOptionalMagic
  | bufferOverflow
  | rvaUnmapped
  | sectionNotFound
deriving DecidableEq, Repr

/-- Little-endian value of n bytes starting at off (missing bytes read as 0;
each byte taken mod 256 as in the uint8_t buffer). -/
def leN (b : Buffer) (off : Nat) : Nat → Nat
  | 0 => 0
  | n + 1 => (b.getD off 0) % 256 + 256 * leN b (off + 1) n

/-- Bounds-checked read of an n-byte little-endian scalar, as
Parser::read_struct does for integral T. -/
def readN? (b : Buffer) (off n : Nat) : Except PEError Nat :=
  if off + n ≤ b.length then .ok (leN b off n) else .error .bufferOverflow

def readU16? (b : Buffer) (off : Nat) : Except PEError Nat := readN? b off 2

def readU32? (b : Buffer) (off : Nat) : Except PEError Nat := readN? b off 4

def readU64? (b : Buffer) (off : Nat) : Except PEError Nat := readN? b off 8

/-- NUL-terminated byte string starting at off, scanning to the first zero
byte or the buffer end (std::find over the buffer). -/
def cstrAt (b : Buffer) (off : Nat) : List Nat :=
  ((b.drop off).map (· % 256)).takeWhile (· ≠ 0)

/-- Raw copy of n bytes starting at off (the unchecked
std::vector(begin+off, begin+off+n) copies of the source). -/
def sliceBytes (b : Buffer) (off n : Nat) : List Nat :=
  ((b.drop off).take n).map (· % 256)

/-- DOS header; the source uses e_magic (offset 0) and e_lfanew (offset 60)
of the canonical 64-byte IMAGE_DOS_HEADER. -/
structure DosHeader where
  e_magic : Nat
  e_lfanew : Nat
deriving DecidableEq, Repr

/-- Modelled from the spec: the header file declaring the packed record types
is not in the repository; the spec fixes the canonical layouts (64-byte DOS
header, magic at 0, e_lfanew at 60). -/
def decodeDosHeader (b : Buffer) (off : Nat) : DosHeader :=
  { e_magic := leN b off 2, e_lfanew := leN b (off + 60) 4 }

def readDosHeader? (b : Buffer) (off : Nat) : Except PEError DosHeader :=
  if off + 64 ≤ b.length then .ok (decodeDosHeader b off) else .error .bufferOverflow

/-- COFF file header (20 bytes); fields the source uses. -/
structure FileHeader where
  machine : Nat
  number_of_sections : Nat
  size_of_optional_header : Nat
deriving DecidableEq, Repr

/-- Modelled from the spec: canonical 20-byte file header; machine at 0,
number_of_sections at 2, size_of_optional_header at 16. -/
def decodeFileHeader (b : Buffer) (off : Nat) : FileHeader :=
  { machine := leN b off 2
    number_of_sections := leN b (off + 2) 2
    size_of_optional_header := leN b (off + 16) 2 }

def readFileHeader? (b : Buffer) (off : Nat) : Except PEError FileHeader :=
  if off + 20 ≤ b.length then .ok (decodeFileHeader b off) else .error .bufferOverflow

/-- Data directory entry: virtual address and size. -/
structure DataDirectory where
  virtual_address : Nat
  size : Nat
deriving DecidableEq, Repr

/-- Optional header (PE32+, 240 bytes with the 16 inline data directories);
fields the source uses. -/
structure OptionalHeader where
  magic : Nat
  address_of_entry_point : Nat
  image_base : Nat
  data_directories : List DataDirectory
deriving DecidableEq, Repr

/-- Modelled from the spec: canonical PE32+ optional header; magic at 0,
address_of_entry_point at 16, image_base at 24, the 16 data directories at
112, total size 240. -/
def decodeOptionalHeader (b : Buffer) (off : Nat) : OptionalHeader :=
  { magic := leN b off 2
    address_of_entry_point := leN b (off + 16) 4
    image_base := leN b (off + 24) 8
    data_directories :=
      (List.range 16).map fun k =>
        { virtual_address := leN b (off + 112 + 8 * k) 4
          size := leN b (off + 116 + 8 * k) 4 } }

def readOptionalHeader? (b : Buffer) (off : Nat) : Except PEError OptionalHeader :=
  if off + 240 ≤ b.length then .ok (decodeOptionalHeader b off) else .error .bufferOverflow

/-- Section header (40 bytes); fields the source uses. -/
structure SectionHeader where
  name : List Nat
  virtual_size : Nat
  virtual_address : Nat
  size_of_raw_data : Nat
  pointer_to_raw_data : Nat
  characteristics : Nat
deriving DecidableEq, Repr

/-- Modelled from the spec: canonical 40-byte section header; 8-byte name at
0, virtual_size at 8, virtual_address at 12, size_of_raw_data at 16,
pointer_to_raw_data at 20, characteristics at 36. -/
def decodeSectionHeader (b : Buffer) (off : Nat) : SectionHeader :=
  { name := ((b.drop off).take 8).map (· % 256)
    virtual_size := leN b (off + 8) 4
    virtual_address := leN b (off + 12) 4
    size_of_raw_data := leN b (off + 16) 4
    pointer_to_raw_data := leN b (off + 20) 4
    characteristics := leN b (off + 36) 4 }

def readSectionHeader? (b : Buffer) (off : Nat) : Except PEError SectionHeader :=
  if off + 40 ≤ b.length then .ok (decodeSectionHeader b off) else .error .bufferOverflow

/-- The section-header loop of Parser::parse: number_of_sections reads at
stride 40. -/
def readSections (b : Buffer) : Nat → Nat → Except PEError (List SectionHeader)
  | _, 0 => .ok []
  | off, n + 1 =>
    match readSectionHeader? b off with
    | .error e => .error e
    | .ok s =>
      match readSections b (off + 40) n with
      | .error e => .error e
      | .ok rest => .ok (s :: rest)

/-- The cached parse result (PEInfoAligned in the source). -/
structure PEInfoAligned where
  dos_header : DosHeader
  file_header : FileHeader
  optional_header : OptionalHeader
  section_headers : List SectionHeader
  data_directories : List DataDirectory
deriving DecidableEq, Repr

/-- Parser::parse: DOS magic, NT signature, machine, optional magic checks in
order, then the data directories and the section headers. -/
def parse (b : Buffer) : Except PEError PEInfoAligned :=
  match readDosHeader? b 0 with
  | .error e => .error e
  | .ok dos =>
    if dos.e_magic ≠ 0x5A4D then .error .notPE
    else
      match readU32? b dos.e_lfanew with
      | .error e => .error e
      | .ok sig =>
        if sig ≠ 0x00004550 then .error .badNtSignature
        else
          match readFileHeader? b (dos.e_lfanew + 4) with
          | .error e => .error e
          | .ok fh =>
            if fh.machine ≠ 0x8664 then .error .unsupportedMachine
            else
              match readOptionalHeader? b (dos.e_lfanew + 4 + 20) with
              | .error e => .error e
              | .ok oh =>
                if oh.magic ≠ 0x20B then .error .unsupportedOptionalMagic
                else
                  match readSections b (dos.e_lfanew + 4 + 20 + fh.size_of_optional_header)
                      fh.number_of_sections with
                  | .error e => .error e
                  | .ok secs =>
                    .ok { dos_header := dos, file_header := fh, optional_header := oh
                          section_headers := secs, data_directories := oh.data_directories }

/-- is_rva_in_section: rva >= va && rva < va + virtual_size (uint32 sum). -/
def is_rva_in_section (rva : Nat) (s : SectionHeader) : Bool :=
  decide (s.virtual_address ≤ rva) &&
    decide (rva < (s.virtual_address + s.virtual_size) % 2 ^ 32)

/-- Parser::rva_to_offset: first section containing the RVA, else RvaUnmapped;
the returned offset is the uint32 expression rva - va + pointer_to_raw_data. -/
def rva_to_offset (secs : List SectionHeader) (rva : Nat) : Except PEError Nat :=
  match secs.find? (is_rva_in_section rva) with
  | none => .error .rvaUnmapped
  | some s => .ok ((rva - s.virtual_address + s.pointer_to_raw_data) % 2 ^ 32)

/-- Parser state: buffer, cached headers, and the two overrides (0 = unset). -/
structure Parser where
  buffer : Buffer
  pe_info : PEInfoAligned
  override_base_address_ : Nat
  override_entry_point_ : Nat
deriving DecidableEq, Repr

def Parser.override_base_address (p : Parser) (address : Nat) : Parser :=
  { p with override_base_address_ := address % 2 ^ 64 }

def Parser.override_entry_point (p : Parser) (address : Nat) : Parser :=
  { p with override_entry_point_ := address % 2 ^ 64 }

def Parser.get_image_base (p : Parser) : Nat :=
  if p.override_base_address_ ≠ 0 then p.override_base_address_
  else p.pe_info.optional_header.image_base

def Parser.get_entry_point (p : Parser) : Nat :=
  if p.override_entry_point_ ≠ 0 then
    (p.get_image_base + p.override_entry_point_) % 2 ^ 64
  else
    (p.pe_info.optional_header.image_base
      + p.pe_info.optional_header.address_of_entry_point) % 2 ^ 64

/-- Parser::get_section_data: first section whose 8-byte name starts with the
given name; the source then copies the raw region without a bounds check, so
the result here is the half-open index range (start, size) that copy touches. -/
def Parser.get_section_data_range (p : Parser) (section_name : List Nat) :
    Except PEError (Nat × Nat) :=
  match p.pe_info.section_headers.find? (fun s => section_name.isPrefixOf s.name) with
  | none => .error .sectionNotFound
  | some s => .ok (s.pointer_to_raw_data, s.size_of_raw_data)

/-- The bytes the source's unchecked copy would produce when the range is in
bounds (out-of-range indices are undefined behaviour in the source; this model
truncates, which is why safety claims are stated on get_section_data_range). -/
def Parser.get_section_data (p : Parser) (section_name : List Nat) :
    Except PEError (List Nat) :=
  match p.get_section_data_range section_name with
  | .error e => .error e
  | .ok (start, n) => .ok (sliceBytes p.buffer start n)

/-- Import entry: ordinal import (bit 63) or name import, with its IAT thunk. -/
structure ImportEntry where
  ordinal : Nat
  name : Option (List Nat)
  thunk_rva : Nat
deriving DecidableEq, Repr

/-- Import descriptor fields the source uses. -/
structure ImportDirectory where
  import_lookup_table_rva : Nat
  name_rva : Nat
  import_address_table_rva : Nat
deriving DecidableEq, Repr

/-- Modelled from the spec: canonical 20-byte import descriptor; ILT RVA at 0,
name RVA at 12, IAT RVA at 16. -/
def decodeImportDescriptor (b : Buffer) (off : Nat) : ImportDirectory :=
  { import_lookup_table_rva := leN b off 4
    name_rva := leN b (off + 12) 4
    import_address_table_rva := leN b (off + 16) 4 }

def readImportDescriptor? (b : Buffer) (off : Nat) : Except PEError ImportDirectory :=
  if off + 20 ≤ b.length then .ok (decodeImportDescriptor b off) else .error .bufferOverflow

/-- The inner ILT loop of Parser::get_import_directory: 8-byte slots from off,
stopping at a zero slot; a read past the buffer end throws (aborting the whole
accessor call, as the uncaught read_struct exception does). -/
def ilt_walk (b : Buffer) (secs : List SectionHeader) (iat : Nat) (off idx : Nat) :
    Except PEError (List ImportEntry) :=
  if h : off + 8 ≤ b.length then
    if leN b off 8 = 0 then .ok []
    else if 2 ^ 63 ≤ leN b off 8 then
      match ilt_walk b secs iat (off + 8) (idx + 1) with
      | .error e => .error e
      | .ok rest =>
        .ok ({ ordinal := leN b off 8 % 2 ^ 16, name := none,
               thunk_rva := (iat + 8 * idx) % 2 ^ 64 } :: rest)
    else
      match rva_to_offset secs (leN b off 8 % 2 ^ 31) with
      | .error e => .error e
      | .ok noff =>
        match ilt_walk b secs iat (off + 8) (idx + 1) with
        | .error e => .error e
        | .ok rest =>
          .ok ({ ordinal := 0, name := some (cstrAt b (noff + 2)),
                 thunk_rva := (iat + 8 * idx) % 2 ^ 64 } :: rest)
  else .error .bufferOverflow
termination_by b.length + 8 - off
decreasing_by all_goals omega

/-- The descriptor loop of Parser::get_import_directory: 20-byte descriptors
until a zero ILT RVA or until the next read would overflow. -/
def import_desc_walk (b : Buffer) (secs : List SectionHeader) (off : Nat) :
    Except PEError (List (List Nat × List ImportEntry)) :=
  if h : off + 20 ≤ b.length then
    if (decodeImportDescriptor b off).import_lookup_table_rva = 0 then .ok []
    else do
      let nameOff ← rva_to_offset secs (decodeImportDescriptor b off).name_rva
      let lookOff ← rva_to_offset secs (decodeImportDescriptor b off).import_lookup_table_rva
      let entries ← ilt_walk b secs (decodeImportDescriptor b off).import_address_table_rva
        lookOff 0
      let rest ← import_desc_walk b secs (off + 20)
      .ok ((cstrAt b nameOff, entries) :: rest)
  else .ok []
termination_by b.length + 20 - off
decreasing_by omega

def Parser.get_import_directory (p : Parser) :
    Except PEError (List (List Nat × List ImportEntry)) :=
  let dir := p.pe_info.data_directories.getD 1 ⟨0, 0⟩
  if dir.virtual_address = 0 then .ok []
  else
    match rva_to_offset p.pe_info.section_headers dir.virtual_address with
    | .error e => .error e
    | .ok off => import_desc_walk p.buffer p.pe_info.section_headers off

/-- TLS directory fields (IMAGE_TLS_DIRECTORY64). -/
structure TlsDirectory64 where
  start_address_of_raw_data : Nat
  end_address_of_raw_data : Nat
  address_of_index : Nat
  address_of_callbacks : Nat
  size_of_zero_fill : Nat
  characteristics : Nat
deriving DecidableEq, Repr

/-- Modelled from the spec: canonical 40-byte TLS directory; four u64 fields
then two u32 fields; address_of_callbacks at 24. -/
def decodeTlsDirectory64 (b : Buffer) (off : Nat) : TlsDirectory64 :=
  { start_address_of_raw_data := leN b off 8
    end_address_of_raw_data := leN b (off + 8) 8
    address_of_index := leN b (off + 16) 8
    address_of_callbacks := leN b (off + 24) 8
    size_of_zero_fill := leN b (off + 32) 4
    characteristics := leN b (off + 36) 4 }

def readTlsDirectory64? (b : Buffer) (off : Nat) : Except PEError TlsDirectory64 :=
  if off + 40 ≤ b.length then .ok (decodeTlsDirectory64 b off) else .error .bufferOverflow

def TlsDirectory64.zero : TlsDirectory64 := ⟨0, 0, 0, 0, 0, 0⟩

/-- The callback loop of Parser::get_tls_directory: 8-byte values until a zero
terminator; a read past the end throws BufferOverflow, aborting the call. -/
def tls_callback_walk (b : Buffer) (off : Nat) : Except PEError (List Nat) :=
  if h : off + 8 ≤ b.length then
    if leN b off 8 = 0 then .ok []
    else
      match tls_callback_walk b (off + 8) with
      | .error e => .error e
      | .ok rest => .ok (leN b off 8 :: rest)
  else .error .bufferOverflow
termination_by b.length + 8 - off
decreasing_by omega

def Parser.get_tls_directory (p : Parser) :
    Except PEError (TlsDirectory64 × List Nat) :=
  let dir := p.pe_info.data_directories.getD 9 ⟨0, 0⟩
  if dir.virtual_address = 0 then .ok (TlsDirectory64.zero, [])
  else
    match rva_to_offset p.pe_info.section_headers dir.virtual_address with
    | .error e => .error e
    | .ok off =>
      match readTlsDirectory64? p.buffer off with
      | .error e => .error e
      | .ok tls =>
        if tls.address_of_callbacks = 0 then .ok (tls, [])
        else
          match rva_to_offset p.pe_info.section_headers
              (tls.address_of_callbacks % 2 ^ 32) with
          | .error e => .error e
          | .ok coff =>
            match tls_callback_walk p.buffer coff with
            | .error e => .error e
            | .ok cbs => .ok (tls, cbs)

/-- Debug directory entry fields. -/
structure DebugDirectory where
  characteristics : Nat
  time_date_stamp : Nat
  major_version : Nat
  minor_version : Nat
  type_ : Nat
  size_of_data : Nat
  address_of_raw_data : Nat
  pointer_to_raw_data : Nat
deriving DecidableEq, Repr

/-- Modelled from the spec: canonical 28-byte debug directory entry; type at
12, size_of_data at 16, pointer_to_raw_data at 24. -/
def decodeDebugDirectory (b : Buffer) (off : Nat) : DebugDirectory :=
  { characteristics := leN b off 4
    time_date_stamp := leN b (off + 4) 4
    major_version := leN b (off + 8) 2
    minor_version := leN b (off + 10) 2
    type_ := leN b (off + 12) 4
    size_of_data := leN b (off + 16) 4
    address_of_raw_data := leN b (off + 20) 4
    pointer_to_raw_data := leN b (off + 24) 4 }

def readDebugDirectory? (b : Buffer) (off : Nat) : Except PEError DebugDirectory :=
  if off + 28 ≤ b.length then .ok (decodeDebugDirectory b off) else .error .bufferOverflow

/-- The entry loop of Parser::get_debug_directory; payload copied (unchecked
in the source) when pointer_to_raw_data and size_of_data are both non-zero. -/
def debug_entries (b : Buffer) : Nat → Nat → Except PEError (List (DebugDirectory × Option (List Nat)))
  | _, 0 => .ok []
  | off, n + 1 =>
    match readDebugDirectory? b off with
    | .error e => .error e
    | .ok entry =>
      let payload :=
        if entry.pointer_to_raw_data ≠ 0 ∧ entry.size_of_data ≠ 0 then
          some (sliceBytes b entry.pointer_to_raw_data entry.size_of_data)
        else none
      match debug_entries b (off + 28) n with
      | .error e => .error e
      | .ok rest => .ok ((entry, payload) :: rest)

def Parser.get_debug_directory (p : Parser) :
    Except PEError (List (DebugDirectory × Option (List Nat))) :=
  let dir := p.pe_info.data_directories.getD 6 ⟨0, 0⟩
  if dir.virtual_address = 0 then .ok []
  else
    match rva_to_offset p.pe_info.section_headers dir.virtual_address with
    | .error e => .error e
    | .ok off => debug_entries p.buffer off (dir.size / 28)

def hexDigitUpper (d : Nat) : Nat := if d < 10 then 48 + d else 55 + d

/-- Zero-padded uppercase hexadecimal digits (bytes) of n, width w: the
snprintf %0wX conversions of the source. -/
def hexUpper (w n : Nat) : List Nat :=
  ((List.range w).reverse).map fun i => hexDigitUpper (n / 16 ^ i % 16)

/-- Decimal digits (bytes) of n: std::format of an unsigned integer. -/
def decimalBytes (n : Nat) : List Nat := (Nat.toDigits 10 n).map Char.toNat

def ascii (s : String) : List Nat := s.data.map Char.toNat

/-- pdb_name.substr(find_last_of of backslash or slash + 1): the suffix after
the last path separator (92 or 47), or the whole string if none. -/
def basenameBytes (path : List Nat) : List Nat :=
  path.foldl (fun acc c => if c = 92 ∨ c = 47 then [] else acc ++ [c]) []

/-- NUL-terminated string inside a finite payload: none when no NUL byte
follows (std::find reaching data.end()). -/
def cstrUpTo? (l : List Nat) (off : Nat) : Option (List Nat) :=
  if (l.drop off).contains 0 then some ((l.drop off).takeWhile (· ≠ 0)) else none

/-- The record scan of Parser::get_pdb_url.  RSDS records need at least 25
bytes (sizeof CV_INFO_PDB70, modelled from the spec: 24 bytes + 1) with the
path at 24; NB10 records need at least 17 bytes with the path at 16.
Malformed records are skipped. -/
def pdb_url_from_records : List (DebugDirectory × Option (List Nat)) → Option (List Nat)
  | [] => none
  | (entry, dataOpt) :: rest =>
    if entry.type_ ≠ 2 then pdb_url_from_records rest
    else
      match dataOpt with
      | none => pdb_url_from_records rest
      | some data =>
        if data.length < 4 then pdb_url_from_records rest
        else
          let signature := leN data 0 4
          if signature = 0x53445352 then
            if data.length < 25 then pdb_url_from_records rest
            else
              match cstrUpTo? data 24 with
              | none => pdb_url_from_records rest
              | some pdbName =>
                let filename := basenameBytes pdbName
                let guidStr := hexUpper 8 (leN data 4 4) ++ hexUpper 4 (leN data 8 2)
                    ++ hexUpper 4 (leN data 10 2)
                    ++ (((data.drop 12).take 8).map fun x => hexUpper 2 (x % 256)).flatten
                some (ascii "https://msdl.microsoft.com/download/symbols/" ++ filename
                  ++ [47] ++ guidStr ++ decimalBytes (leN data 20 4) ++ [47] ++ filename)
          else if signature = 0x3031424E then
            if data.length < 17 then pdb_url_from_records rest
            else
              match cstrUpTo? data 16 with
              | none => pdb_url_from_records rest
              | some pdbName =>
                let filename := basenameBytes pdbName
                some (ascii "https://msdl.microsoft.com/download/symbols/" ++ filename
                  ++ [47] ++ hexUpper 8 (leN data 8 4) ++ decimalBytes (leN data 12 4)
                  ++ [47] ++ filename)
          else pdb_url_from_records rest

def Parser.get_pdb_url (p : Parser) : Except PEError (Option (List Nat)) :=
  match p.get_debug_directory with
  | .error e => .error e
  | .ok records => .ok (pdb_url_from_records records)

/-- Whether the scan of get_pdb_url returns at this record rather than
skipping it (the conditions of the source's continue statements). -/
def cv_record_used (r : DebugDirectory × Option (List Nat)) : Bool :=
  decide (r.1.type_ = 2) &&
    match r.2 with
    | none => false
    | some data =>
      decide (4 ≤ data.length) &&
        ((decide (leN data 0 4 = 0x53445352) && decide (25 ≤ data.length) &&
            (data.drop 24).contains 0) ||
         (decide (leN data 0 4 = 0x3031424E) && decide (17 ≤ data.length) &&
            (data.drop 16).contains 0))

/-- Claim C6 restated from the spec's words: the symbol-server URL for an
RSDS payload; filename is the basename of the embedded path (split on
backslash or slash), the GUID prints as %08X%04X%04X then eight %02X in
uppercase, and the age prints in decimal. -/
def rsds_url_spec (payload : List Nat) : List Nat :=
  let path := (payload.drop 24).takeWhile (· ≠ 0)
  let filename := basenameBytes path
  let guid := hexUpper 8 (leN payload 4 4) ++ hexUpper 4 (leN payload 8 2)
      ++ hexUpper 4 (leN payload 10 2)
      ++ (((payload.drop 12).take 8).map fun x => hexUpper 2 (x % 256)).flatten
  ascii "https://msdl.microsoft.com/download/symbols/" ++ filename ++ [47] ++ guid
    ++ decimalBytes (leN payload 20 4) ++ [47] ++ filename

/-- Export directory table fields the source uses. -/
structure ExportDirectory where
  name_rva : Nat
  base : Nat
  number_of_functions : Nat
  number_of_names : Nat
  address_of_functions : Nat
  address_of_names : Nat
  address_of_name_ordinals : Nat
deriving DecidableEq, Repr

/-- Modelled from the spec: canonical 40-byte export directory; name RVA at
12, ordinal base at 16, counts at 20 and 24, the three table RVAs at 28, 32
and 36. -/
def decodeExportDirectory (b : Buffer) (off : Nat) : ExportDirectory :=
  { name_rva := leN b (off + 12) 4
    base := leN b (off + 16) 4
    number_of_functions := leN b (off + 20) 4
    number_of_names := leN b (off + 24) 4
    address_of_functions := leN b (off + 28) 4
    address_of_names := leN b (off + 32) 4
    address_of_name_ordinals := leN b (off + 36) 4 }

def readExportDirectory? (b : Buffer) (off : Nat) : Except PEError ExportDirectory :=
  if off + 40 ≤ b.length then .ok (decodeExportDirectory b off) else .error .bufferOverflow

def ExportDirectory.zero : ExportDirectory := ⟨0, 0, 0, 0, 0, 0, 0⟩

/-- One emitted export entry. -/
structure ExportEntry where
  name : List Nat
  public_ordinal : Nat
  forwarder_ordinal : Option Nat
  address : Nat
deriving DecidableEq, Repr

/-- The body of the name loop of Parser::get_export_directory at index i. -/
def export_entry_at (b : Buffer) (secs : List SectionHeader) (dir : DataDirectory)
    (base imageBase fnsOff namesOff ordsOff i : Nat) : Except PEError ExportEntry :=
  match readU32? b (namesOff + 4 * i) with
  | .error e => .error e
  | .ok nameRva =>
    match readU16? b (ordsOff + 2 * i) with
    | .error e => .error e
    | .ok ordinal =>
      match readU32? b (fnsOff + 4 * ordinal) with
      | .error e => .error e
      | .ok functionRva =>
        match (if nameRva ≠ 0 then
                 match rva_to_offset secs nameRva with
                 | .error e => .error e
                 | .ok noff => .ok (cstrAt b noff)
               else (.ok [] : Except PEError (List Nat))) with
        | .error e => .error e
        | .ok name =>
          .ok { name := name
                public_ordinal := (ordinal + base) % 2 ^ 32
                forwarder_ordinal :=
                  if dir.virtual_address ≤ functionRva ∧
                      functionRva < (dir.virtual_address + dir.size) % 2 ^ 32 then
                    some ordinal
                  else none
                address :=
                  if functionRva = 0 then 0 else (imageBase + functionRva) % 2 ^ 64 }

/-- The name loop of Parser::get_export_directory for indices i, i+1, ... -/
def export_entries_loop (b : Buffer) (secs : List SectionHeader) (dir : DataDirectory)
    (base imageBase fnsOff namesOff ordsOff : Nat) : Nat → Nat → Except PEError (List ExportEntry)
  | _, 0 => .ok []
  | i, n + 1 =>
    match export_entry_at b secs dir base imageBase fnsOff namesOff ordsOff i with
    | .error e => .error e
    | .ok entry =>
      match export_entries_loop b secs dir base imageBase fnsOff namesOff ordsOff (i + 1) n with
      | .error e => .error e
      | .ok rest => .ok (entry :: rest)

/-- Parser::get_export_directory.  The library-name lookup is performed (and
can fail) even though its result is not returned. -/
def Parser.get_export_directory (p : Parser) :
    Except PEError (ExportDirectory × List ExportEntry) :=
  let dir := p.pe_info.data_directories.getD 0 ⟨0, 0⟩
  if dir.virtual_address = 0 then .ok (ExportDirectory.zero, [])
  else
    match rva_to_offset p.pe_info.section_headers dir.virtual_address with
    | .error e => .error e
    | .ok off =>
      match readExportDirectory? p.buffer off with
      | .error e => .error e
      | .ok et =>
        match (if et.name_rva ≠ 0 then
                 match rva_to_offset p.pe_info.section_headers et.name_rva with
                 | .error e => .error e
                 | .ok noff => .ok (cstrAt p.buffer noff)
               else (.ok [] : Except PEError (List Nat))) with
        | .error e => .error e
        | .ok _dll_name =>
          match rva_to_offset p.pe_info.section_headers et.address_of_functions with
          | .error e => .error e
          | .ok fnsOff =>
            match rva_to_offset p.pe_info.section_headers et.address_of_names with
            | .error e => .error e
            | .ok namesOff =>
              match rva_to_offset p.pe_info.section_headers et.address_of_name_ordinals with
              | .error e => .error e
              | .ok ordsOff =>
                match export_entries_loop p.buffer p.pe_info.section_headers dir et.base
                    p.get_image_base fnsOff namesOff ordsOff 0 et.number_of_names with
                | .error e => .error e
                | .ok entries => .ok (et, entries)

/-- Runtime function (x64 exception directory entry). -/
structure RuntimeFunction where
  begin_address : Nat
  end_address : Nat
  unwind_info_address : Nat
deriving DecidableEq, Repr

def decodeRuntimeFunction (b : Buffer) (off : Nat) : RuntimeFunction :=
  { begin_address := leN b off 4
    end_address := leN b (off + 4) 4
    unwind_info_address := leN b (off + 8) 4 }

def readRuntimeFunction? (b : Buffer) (off : Nat) : Except PEError RuntimeFunction :=
  if off + 12 ≤ b.length then .ok (decodeRuntimeFunction b off) else .error .bufferOverflow

/-- Unwind info prefix. Modelled from the spec: the flags byte is at offset 0,
count_of_codes at 2, the unwind-code array at 4 with 2-byte codes, and the
record read spans 6 bytes (the four-byte prefix plus one code slot). -/
structure UnwindInfo where
  flags : Nat
  size_of_prolog : Nat
  count_of_codes : Nat
  frame : Nat
deriving DecidableEq, Repr

def decodeUnwindInfo (b : Buffer) (off : Nat) : UnwindInfo :=
  { flags := b.getD off 0 % 256
    size_of_prolog := b.getD (off + 1) 0 % 256
    count_of_codes := b.getD (off + 2) 0 % 256
    frame := b.getD (off + 3) 0 % 256 }

def readUnwindInfo? (b : Buffer) (off : Nat) : Except PEError UnwindInfo :=
  if off + 6 ≤ b.length then .ok (decodeUnwindInfo b off) else .error .bufferOverflow

/-- Parser::resolve_chained_function with explicit fuel: the source recursion
has no bound, so the model returns none when fuel runs out; every internal
failure is caught and collapses to the current function, as in the source. -/
def resolve_chained_function_fuel (b : Buffer) (secs : List SectionHeader) :
    Nat → RuntimeFunction → Option RuntimeFunction
  | 0, _ => none
  | fuel + 1, f =>
    if f.unwind_info_address = 0 then some f
    else
      match rva_to_offset secs f.unwind_info_address with
      | .error _ => some f
      | .ok uoff =>
        match readUnwindInfo? b uoff with
        | .error _ => some f
        | .ok ui =>
          if ui.flags &&& 4 ≠ 0 then
            let index := if ui.count_of_codes % 2 = 1 then ui.count_of_codes + 1
              else ui.count_of_codes
            match readRuntimeFunction? b (uoff + 4 + index * 2) with
            | .error _ => some f
            | .ok chainFunc => resolve_chained_function_fuel b secs fuel chainFunc
          else some f

/-- The entry loop of Parser::get_exception_directory (with the chain fuel);
read failures on an entry abort the call, chain failures are localized, and a
failing terminal unwind-info read yields none. -/
def exception_entries_fuel (b : Buffer) (secs : List SectionHeader) (off fuel : Nat) :
    Nat → Nat → Option (Except PEError (List (RuntimeFunction × Option UnwindInfo)))
  | _, 0 => some (.ok [])
  | i, n + 1 =>
    match readRuntimeFunction? b (off + 12 * i) with
    | .error e => some (.error e)
    | .ok f =>
      match resolve_chained_function_fuel b secs fuel f with
      | none => none
      | some rf =>
        let ui :=
          if rf.unwind_info_address ≠ 0 then
            match rva_to_offset secs rf.unwind_info_address with
            | .error _ => none
            | .ok uo => (readUnwindInfo? b uo).toOption
          else none
        match exception_entries_fuel b secs off fuel (i + 1) n with
        | none => none
        | some (.error e) => some (.error e)
        | some (.ok rest) => some (.ok ((rf, ui) :: rest))

def Parser.get_exception_directory_fuel (p : Parser) (fuel : Nat) :
    Option (Except PEError (List (RuntimeFunction × Option UnwindInfo))) :=
  let dir := p.pe_info.data_directories.getD 3 ⟨0, 0⟩
  if dir.virtual_address = 0 then some (.ok [])
  else
    match rva_to_offset p.pe_info.section_headers dir.virtual_address with
    | .error e => some (.error e)
    | .ok off => exception_entries_fuel p.buffer p.pe_info.section_headers off fuel 0 (dir.size / 12)

/-- No finite recursion depth lets get_exception_directory return: the source
call runs forever (unbounded chain recursion). -/
def exception_directory_diverges (p : Parser) : Prop :=
  ∀ fuel, p.get_exception_directory_fuel fuel = none

/-- Fuel-indexed mirror of tls_callback_walk: none means the loop has not
finished within fuel iterations. -/
def tls_walk_fuel (b : Buffer) : Nat → Nat → Option (Except PEError (List Nat))
  | _, 0 => none
  | off, fuel + 1 =>
    if off + 8 ≤ b.length then
      if leN b off 8 = 0 then some (.ok [])
      else
        match tls_walk_fuel b (off + 8) fuel with
        | none => none
        | some (.error e) => some (.error e)
        | some (.ok rest) => some (.ok (leN b off 8 :: rest))
    else some (.error .bufferOverflow)

/-- Fuel-indexed mirror of ilt_walk. -/
def ilt_walk_fuel (b : Buffer) (secs : List SectionHeader) (iat : Nat) :
    Nat → Nat → Nat → Option (Except PEError (List ImportEntry))
  | _, _, 0 => none
  | off, idx, fuel + 1 =>
    if off + 8 ≤ b.length then
      if leN b off 8 = 0 then some (.ok [])
      else if 2 ^ 63 ≤ leN b off 8 then
        match ilt_walk_fuel b secs iat (off + 8) (idx + 1) fuel with
        | none => none
        | some (.error e) => some (.error e)
        | some (.ok rest) =>
          some (.ok ({ ordinal := leN b off 8 % 2 ^ 16, name := none,
                       thunk_rva := (iat + 8 * idx) % 2 ^ 64 } :: rest))
      else
        match rva_to_offset secs (leN b off 8 % 2 ^ 31) with
        | .error e => some (.error e)
        | .ok noff =>
          match ilt_walk_fuel b secs iat (off + 8) (idx + 1) fuel with
          | none => none
          | some (.error e) => some (.error e)
          | some (.ok rest) =>
            some (.ok ({ ordinal := 0, name := some (cstrAt b (noff + 2)),
                         thunk_rva := (iat + 8 * idx) % 2 ^ 64 } :: rest))
    else some (.error .bufferOverflow)

/-- Fuel-indexed mirror of import_desc_walk (the inner ILT walk appears via
its own mirror at fuel buffer-length + 1, which lemma ilt_walk_fuel_sound
shows is always enough). -/
def import_desc_walk_fuel (b : Buffer) (secs : List SectionHeader) :
    Nat → Nat → Option (Except PEError (List (List Nat × List ImportEntry)))
  | _, 0 => none
  | off, fuel + 1 =>
    if off + 20 ≤ b.length then
      if (decodeImportDescriptor b off).import_lookup_table_rva = 0 then some (.ok [])
      else
        match rva_to_offset secs (decodeImportDescriptor b off).name_rva with
        | .error e => some (.error e)
        | .ok nameOff =>
          match rva_to_offset secs (decodeImportDescriptor b off).import_lookup_table_rva with
          | .error e => some (.error e)
          | .ok lookOff =>
            match ilt_walk_fuel b secs (decodeImportDescriptor b off).import_address_table_rva
                lookOff 0 (b.length + 1) with
            | none => none
            | some (.error e) => some (.error e)
            | some (.ok entries) =>
              match import_desc_walk_fuel b secs (off + 20) fuel with
              | none => none
              | some (.error e) => some (.error e)
              | some (.ok rest) => some (.ok ((cstrAt b nameOff, entries) :: rest))
    else some (.ok [])

/-- Base relocation block header. -/
structure BaseRelocationBlock where
  virtual_address : Nat
  size_of_block : Nat
deriving DecidableEq, Repr

def decodeBaseRelocationBlock (b : Buffer) (off : Nat) : BaseRelocationBlock :=
  { virtual_address := leN b off 4, size_of_block := leN b (off + 4) 4 }

def readBaseRelocationBlock? (b : Buffer) (off : Nat) : Except PEError BaseRelocationBlock :=
  if off + 8 ≤ b.length then .ok (decodeBaseRelocationBlock b off) else .error .bufferOverflow

/-- The 16-bit entry loop inside one relocation block: (type, offset) pairs,
with the uint32 count (size_of_block - 8) / 2 computed by the caller. -/
def reloc_entries (b : Buffer) (base : Nat) : Nat → Nat → Except PEError (List (Nat × Nat))
  | _, 0 => .ok []
  | i, n + 1 =>
    match readU16? b (base + 2 * i) with
    | .error e => .error e
    | .ok v =>
      match reloc_entries b base (i + 1) n with
      | .error e => .error e
      | .ok rest => .ok ((v / 2 ^ 12 % 16, v % 2 ^ 12) :: rest)

/-- The block loop of Parser::get_relocation_directory, with fuel: the source
advances by size_of_block, which a zero-sized block never does. -/
def reloc_walk_fuel (b : Buffer) (endOff : Nat) :
    Nat → Nat → Option (Except PEError (List (Nat × List (Nat × Nat))))
  | _, 0 => none
  | off, fuel + 1 =>
    if off < endOff then
      match readBaseRelocationBlock? b off with
      | .error e => some (.error e)
      | .ok blk =>
        let count := (blk.size_of_block + 2 ^ 32 - 8) % 2 ^ 32 / 2
        match reloc_entries b (off + 8) 0 count with
        | .error e => some (.error e)
        | .ok es =>
          match reloc_walk_fuel b endOff (off + blk.size_of_block) fuel with
          | none => none
          | some (.error e) => some (.error e)
          | some (.ok rest) => some (.ok ((blk.virtual_address, es) :: rest))
    else some (.ok [])

def Parser.get_relocation_directory_fuel (p : Parser) (fuel : Nat) :
    Option (Except PEError (List (Nat × List (Nat × Nat)))) :=
  let dir := p.pe_info.data_directories.getD 5 ⟨0, 0⟩
  if dir.virtual_address = 0 then some (.ok [])
  else
    match rva_to_offset p.pe_info.section_headers dir.virtual_address with
    | .error e => some (.error e)
    | .ok off => reloc_walk_fuel p.buffer (off + dir.size) off fuel

def u16le (n : Nat) : List Nat := [n % 256, n / 2 ^ 8 % 256]

def u32le (n : Nat) : List Nat :=
  [n % 256, n / 2 ^ 8 % 256, n / 2 ^ 16 % 256, n / 2 ^ 24 % 256]

def u64le (n : Nat) : List Nat := u32le (n % 2 ^ 32) ++ u32le (n / 2 ^ 32)

def padZ (n : Nat) : List Nat := List.replicate n 0

/-- 128-byte data-directory table from the leading (va, size) pairs. -/
def dirTableBytes (dirs : List (Nat × Nat)) : List Nat :=
  ((dirs ++ List.replicate (16 - dirs.length) (0, 0)).map
    fun (d : Nat × Nat) => u32le d.1 ++ u32le d.2).flatten

/-- Headers of a test image: DOS header (e_lfanew 64), NT signature, file
header, PE32+ optional header with image base 0x140000000 and entry RVA
0x1000; 328 bytes, sections start at 328. -/
def mkHeaders (machine optMagic nsec : Nat) (dirs : List (Nat × Nat)) : List Nat :=
  u16le 0x5A4D ++ padZ 58 ++ u32le 64
    ++ u32le 0x4550
    ++ u16le machine ++ u16le nsec ++ padZ 12 ++ u16le 240 ++ u16le 0
    ++ u16le optMagic ++ padZ 14 ++ u32le 0x1000 ++ padZ 4 ++ u64le 0x140000000
    ++ padZ 80 ++ dirTableBytes dirs

/-- 40-byte section header record. -/
def sectionBytes (name : List Nat) (vsize va srd praw chars : Nat) : List Nat :=
  (name ++ padZ 8).take 8 ++ u32le vsize ++ u32le va ++ u32le srd ++ u32le praw
    ++ padZ 12 ++ u32le chars

def infoOrDefault (b : Buffer) : PEInfoAligned :=
  match parse b with
  | .ok i => i
  | .error _ => ⟨⟨0, 0⟩, ⟨0, 0, 0⟩, ⟨0, 0, 0, []⟩, [], []⟩

def mkParser (b : Buffer) : Parser := ⟨b, infoOrDefault b, 0, 0⟩

/-- Export test image: one section at RVA 0x1000 (raw offset 368), export
directory at RVA 0x1000 with one named entry whose function RVA 0x1050 falls
inside the directory's [0x1000, 0x1100) range (a forwarder). -/
def bufE : Buffer :=
  mkHeaders 0x8664 0x20B 1 [(0x1000, 0x100)]
    ++ sectionBytes (ascii ".edata") 0x1000 0x1000 72 368 0x40000040
    ++ (u32le 0 ++ u32le 0 ++ u16le 0 ++ u16le 0 ++ u32le 0 ++ u32le 1 ++ u32le 1
        ++ u32le 1 ++ u32le 0x1028 ++ u32le 0x102C ++ u32le 0x1030)
    ++ u32le 0x1050 ++ u32le 0x1040 ++ u16le 0 ++ padZ 14
    ++ [70, 0] ++ padZ 6

def pE : Parser := mkParser bufE

/-- Import test image: one descriptor (ILT RVA 0x1040, name RVA 0x1030, IAT
RVA 0x2000) followed by a zero descriptor; the ILT holds an ordinal import,
a name import pointing at the hint/name record at RVA 0x1060, and the zero
terminator. -/
def bufI : Buffer :=
  mkHeaders 0x8664 0x20B 1 [(0, 0), (0x1000, 0x100)]
    ++ sectionBytes (ascii ".idata") 0x1000 0x1000 104 368 0x40000040
    ++ (u32le 0x1040 ++ u32le 0 ++ u32le 0 ++ u32le 0x1030 ++ u32le 0x2000)
    ++ padZ 20
    ++ padZ 8
    ++ [68, 0] ++ padZ 14
    ++ u64le 0x8000000000000042 ++ u64le 0x1060 ++ u64le 0
    ++ padZ 8
    ++ u16le 0 ++ [70, 110, 0] ++ padZ 3

def pI : Parser := mkParser bufI

/-- TLS test image: TLS directory at RVA 0x1000 with address_of_callbacks
0x1030; the callback array holds two non-zero values and a terminator. -/
def bufT : Buffer :=
  mkHeaders 0x8664 0x20B 1
      [(0, 0), (0, 0), (0, 0), (0, 0), (0, 0), (0, 0), (0, 0), (0, 0), (0, 0), (0x1000, 40)]
    ++ sectionBytes (ascii ".tls") 0x1000 0x1000 72 368 0xC0000040
    ++ (u64le 0 ++ u64le 0 ++ u64le 0 ++ u64le 0x1030 ++ u32le 0 ++ u32le 0)
    ++ padZ 8
    ++ u64le 0x140001100 ++ u64le 0x140001200 ++ u64le 0

def pT : Parser := mkParser bufT

/-- TLS test image without a callback terminator: one non-zero callback and
then too few bytes for another 8-byte read. -/
def bufT2 : Buffer :=
  mkHeaders 0x8664 0x20B 1
      [(0, 0), (0, 0), (0, 0), (0, 0), (0, 0), (0, 0), (0, 0), (0, 0), (0, 0), (0x1000, 40)]
    ++ sectionBytes (ascii ".tls") 0x1000 0x1000 62 368 0xC0000040
    ++ (u64le 0 ++ u64le 0 ++ u64le 0 ++ u64le 0x1030 ++ u32le 0 ++ u32le 0)
    ++ padZ 8
    ++ u64le 1 ++ padZ 6

def pT2 : Parser := mkParser bufT2

/-- Exception test image with a cyclic unwind chain: the runtime function at
RVA 0x1000 points at unwind info at RVA 0x1020 whose chain flag is set; the
chained runtime function stored at its unwind-code array points back at the
same unwind info. -/
def bufX : Buffer :=
  mkHeaders 0x8664 0x20B 1 [(0, 0), (0, 0), (0, 0), (0x1000, 12)]
    ++ sectionBytes (ascii ".pdata") 0x1000 0x1000 48 368 0x40000040
    ++ (u32le 0x1100 ++ u32le 0x1110 ++ u32le 0x1020)
    ++ padZ 20
    ++ [0x24, 0, 0, 0]
    ++ u32le 0x1100 ++ u32le 0x1110 ++ u32le 0x1020

def pX : Parser := mkParser bufX

/-- The runtime function the cyclic chain of bufX keeps resolving to. -/
def funcX : RuntimeFunction := ⟨0x1100, 0x1110, 0x1020⟩

/-- Debug test image: one CodeView (type 2) debug entry whose RSDS payload at
file offset 396 carries the GUID, age 26 and path of scenario S5. -/
def rsdsPayload : List Nat :=
  [82, 83, 68, 83] ++ u32le 0x11223344 ++ u16le 0x5566 ++ u16le 0x7788
    ++ [0x99, 0xAA, 0xBB, 0xCC, 0xDD, 0xEE, 0xFF, 0x00]
    ++ u32le 26 ++ ascii "c:\\x\\foo.pdb" ++ [0]

def bufD : Buffer :=
  mkHeaders 0x8664 0x20B 1 [(0, 0), (0, 0), (0, 0), (0, 0), (0, 0), (0, 0), (0x1000, 28)]
    ++ sectionBytes (ascii ".rdata") 0x1000 0x1000 65 368 0x40000040
    ++ (u32le 0 ++ u32le 0 ++ u16le 0 ++ u16le 0 ++ u32le 2 ++ u32le 37 ++ u32le 0
        ++ u32le 396)
    ++ rsdsPayload

def pD : Parser := mkParser bufD

/-- Image whose single section advertises a raw region [512, 512 + 4096) in a
368-byte buffer: the headers parse, but the unchecked section copy would read
far past the end. -/
def bufS : Buffer :=
  mkHeaders 0x8664 0x20B 1 []
    ++ sectionBytes (ascii ".text") 0x1000 0x1000 4096 512 0x60000020

def pS : Parser := mkParser bufS

/-- Well-formed headers except for optional-header magic 0x10B (a PE32
image), scenario S2. -/
def bufPE32 : Buffer := mkHeaders 0x8664 0x10B 0 []

end PE

namespace PE

/-! Fuel sufficiency: each terminator-driven walk of the source finishes
within buffer-length-bounded iterations, so the fuel-indexed mirrors agree
with the walks for fuel b.length + 1. -/

theorem tls_walk_fuel_sound (b : Buffer) :
    ∀ fuel off, b.length ≤ off + 8 * fuel →
      tls_walk_fuel b off (fuel + 1) = some (tls_callback_walk b off) := by
  intro fuel
  induction fuel with
  | zero =>
    intro off h
    have hc : ¬ (off + 8 ≤ b.length) := by omega
    have unf : tls_walk_fuel b off 1 =
        (if off + 8 ≤ b.length then
           if leN b off 8 = 0 then some (.ok [])
           else
             match tls_walk_fuel b (off + 8) 0 with
             | none => none
             | some (.error e) => some (.error e)
             | some (.ok rest) => some (.ok (leN b off 8 :: rest))
         else some (.error .bufferOverflow)) := rfl
    rw [unf, if_neg hc, tls_callback_walk, dif_neg hc]
  | succ n ih =>
    intro off h
    have unf : tls_walk_fuel b off (n + 1 + 1) =
        (if off + 8 ≤ b.length then
           if leN b off 8 = 0 then some (.ok [])
           else
             match tls_walk_fuel b (off + 8) (n + 1) with
             | none => none
             | some (.error e) => some (.error e)
             | some (.ok rest) => some (.ok (leN b off 8 :: rest))
         else some (.error .bufferOverflow)) := rfl
    rw [unf, tls_callback_walk]
    by_cases hc : off + 8 ≤ b.length
    · rw [if_pos hc, dif_pos hc]
      by_cases hv : leN b off 8 = 0
      · rw [if_pos hv, if_pos hv]
      · rw [if_neg hv, if_neg hv, ih (off + 8) (by omega)]
        cases tls_callback_walk b (off + 8) <;> rfl
    · rw [if_neg hc, dif_neg hc]

theorem tls_walk_fuel_len (b : Buffer) (off : Nat) :
    tls_walk_fuel b off (b.length + 1) = some (tls_callback_walk b off) :=
  tls_walk_fuel_sound b b.length off (by omega)

theorem tls_walk_eval {b : Buffer} {off : Nat} {r : Except PEError (List Nat)}
    (h : tls_walk_fuel b off (b.length + 1) = some r) :
    tls_callback_walk b off = r := by
  rw [tls_walk_fuel_len] at h
  exact Option.some.inj h

theorem ilt_walk_fuel_sound (b : Buffer) (secs : List SectionHeader) (iat : Nat) :
    ∀ fuel off idx, b.length ≤ off + 8 * fuel →
      ilt_walk_fuel b secs iat off idx (fuel + 1) = some (ilt_walk b secs iat off idx) := by
  intro fuel
  induction fuel with
  | zero =>
    intro off idx h
    have hc : ¬ (off + 8 ≤ b.length) := by omega
    have unf : ilt_walk_fuel b secs iat off idx 1 =
        (if off + 8 ≤ b.length then
           if leN b off 8 = 0 then some (.ok [])
           else if 2 ^ 63 ≤ leN b off 8 then
             match ilt_walk_fuel b secs iat (off + 8) (idx + 1) 0 with
             | none => none
             | some (.error e) => some (.error e)
             | some (.ok rest) =>
               some (.ok ({ ordinal := leN b off 8 % 2 ^ 16, name := none,
                            thunk_rva := (iat + 8 * idx) % 2 ^ 64 } :: rest))
           else
             match rva_to_offset secs (leN b off 8 % 2 ^ 31) with
             | .error e => some (.error e)
             | .ok noff =>
               match ilt_walk_fuel b secs iat (off + 8) (idx + 1) 0 with
               | none => none
               | some (.error e) => some (.error e)
               | some (.ok rest) =>
                 some (.ok ({ ordinal := 0, name := some (cstrAt b (noff + 2)),
                              thunk_rva := (iat + 8 * idx) % 2 ^ 64 } :: rest))
         else some (.error .bufferOverflow)) := rfl
    rw [unf, if_neg hc, ilt_walk, dif_neg hc]
  | succ n ih =>
    intro off idx h
    have unf : ilt_walk_fuel b secs iat off idx (n + 1 + 1) =
        (if off + 8 ≤ b.length then
           if leN b off 8 = 0 then some (.ok [])
           else if 2 ^ 63 ≤ leN b off 8 then
             match ilt_walk_fuel b secs iat (off + 8) (idx + 1) (n + 1) with
             | none => none
             | some (.error e) => some (.error e)
             | some (.ok rest) =>
               some (.ok ({ ordinal := leN b off 8 % 2 ^ 16, name := none,
                            thunk_rva := (iat + 8 * idx) % 2 ^ 64 } :: rest))
           else
             match rva_to_offset secs (leN b off 8 % 2 ^ 31) with
             | .error e => some (.error e)
             | .ok noff =>
               match ilt_walk_fuel b secs iat (off + 8) (idx + 1) (n + 1) with
               | none => none
               | some (.error e) => some (.error e)
               | some (.ok rest) =>
                 some (.ok ({ ordinal := 0, name := some (cstrAt b (noff + 2)),
                              thunk_rva := (iat + 8 * idx) % 2 ^ 64 } :: rest))
         else some (.error .bufferOverflow)) := rfl
    rw [unf, ilt_walk]
    by_cases hc : off + 8 ≤ b.length
    · rw [if_pos hc, dif_pos hc]
      by_cases hv : leN b off 8 = 0
      · rw [if_pos hv, if_pos hv]
      · rw [if_neg hv, if_neg hv]
        by_cases ho : 2 ^ 63 ≤ leN b off 8
        · rw [if_pos ho, if_pos ho, ih (off + 8) (idx + 1) (by omega)]
          cases ilt_walk b secs iat (off + 8) (idx + 1) <;> rfl
        · rw [if_neg ho, if_neg ho, ih (off + 8) (idx + 1) (by omega)]
          cases rva_to_offset secs (leN b off 8 % 2 ^ 31) with
          | error e => rfl
          | ok noff => cases ilt_walk b secs iat (off + 8) (idx + 1) <;> rfl
    · rw [if_neg hc, dif_neg hc]

theorem ilt_walk_fuel_len (b : Buffer) (secs : List SectionHeader) (iat off idx : Nat) :
    ilt_walk_fuel b secs iat off idx (b.length + 1) = some (ilt_walk b secs iat off idx) :=
  ilt_walk_fuel_sound b secs iat b.length off idx (by omega)

theorem ilt_walk_eval {b : Buffer} {secs : List SectionHeader} {iat off idx : Nat}
    {r : Except PEError (List ImportEntry)}
    (h : ilt_walk_fuel b secs iat off idx (b.length + 1) = some r) :
    ilt_walk b secs iat off idx = r := by
  rw [ilt_walk_fuel_len] at h
  exact Option.some.inj h

theorem ok_bind {ε α β : Type} (a : α) (f : α → Except ε β) :
    (Except.ok a >>= f) = f a := rfl

theorem error_bind {ε α β : Type} (e : ε) (f : α → Except ε β) :
    ((Except.error e : Except ε α) >>= f) = .error e := rfl

set_option maxHeartbeats 1000000 in
theorem import_desc_walk_fuel_sound (b : Buffer) (secs : List SectionHeader) :
    ∀ fuel off, b.length ≤ off + 20 * fuel →
      import_desc_walk_fuel b secs off (fuel + 1) = some (import_desc_walk b secs off) := by
  intro fuel
  induction fuel with
  | zero =>
    intro off h
    have hc : ¬ (off + 20 ≤ b.length) := by omega
    simp only [import_desc_walk_fuel]
    rw [if_neg hc, import_desc_walk, dif_neg hc]
  | succ n ih =>
    intro off h
    rw [import_desc_walk_fuel.eq_2, import_desc_walk]
    by_cases hc : off + 20 ≤ b.length
    · rw [if_pos hc, dif_pos hc]
      by_cases hz : (decodeImportDescriptor b off).import_lookup_table_rva = 0
      · rw [if_pos hz, if_pos hz]
      · rw [if_neg hz, if_neg hz]
        simp only [ilt_walk_fuel_len]
        rw [ih (off + 20) (by omega)]
        cases rva_to_offset secs (decodeImportDescriptor b off).name_rva with
        | error e => rfl
        | ok nameOff =>
          simp only [ok_bind]
          cases rva_to_offset secs (decodeImportDescriptor b off).import_lookup_table_rva with
          | error e => rfl
          | ok lookOff =>
            simp only [ok_bind]
            cases ilt_walk b secs (decodeImportDescriptor b off).import_address_table_rva
                lookOff 0 with
            | error e => rfl
            | ok entries =>
              simp only [ok_bind]
              cases import_desc_walk b secs (off + 20) <;> rfl
    · rw [if_neg hc, dif_neg hc]

theorem import_desc_walk_fuel_len (b : Buffer) (secs : List SectionHeader) (off : Nat) :
    import_desc_walk_fuel b secs off (b.length + 1) = some (import_desc_walk b secs off) :=
  import_desc_walk_fuel_sound b secs b.length off (by omega)

theorem import_desc_walk_eval {b : Buffer} {secs : List SectionHeader} {off : Nat}
    {r : Except PEError (List (List Nat × List ImportEntry))}
    (h : import_desc_walk_fuel b secs off (b.length + 1) = some r) :
    import_desc_walk b secs off = r := by
  rw [import_desc_walk_fuel_len] at h
  exact Option.some.inj h

/-! Claim C3: the address mapper. -/

/-- C3: for every parsed image, every section S, and every RVA r inside S
(and covered by no other section, per the spec's uniqueness invariant 2),
rva_to_offset returns r - S.virtual_address + S.pointer_to_raw_data (as the
uint32 expression the source computes); and when no section covers r it fails
with RvaUnmapped. -/
theorem rva_to_offset_correct (secs : List SectionHeader) (r : Nat) :
    (∀ S, S ∈ secs → is_rva_in_section r S = true →
      (∀ T, T ∈ secs → is_rva_in_section r T = true → T = S) →
      rva_to_offset secs r =
        .ok ((r - S.virtual_address + S.pointer_to_raw_data) % 2 ^ 32)) ∧
    ((∀ S, S ∈ secs → is_rva_in_section r S = false) →
      rva_to_offset secs r = .error .rvaUnmapped) := by
  constructor
  · intro S hmem hin huniq
    unfold rva_to_offset
    cases hf : secs.find? (is_rva_in_section r) with
    | none =>
      exact absurd hin (by simpa using List.find?_eq_none.mp hf S hmem)
    | some T =>
      have hTS : T = S :=
        huniq T (List.mem_of_find?_eq_some hf) (List.find?_some hf)
      rw [hTS]
  · intro hnone
    unfold rva_to_offset
    rw [List.find?_eq_none.mpr (fun S hS => by simp [hnone S hS])]

/-- C3 witness: scenario S3, a .text section with RVA 0x1000, raw pointer
0x400, virtual size 0x200: rva_to_offset 0x1050 = 0x450; and an unmapped RVA
fails with RvaUnmapped. -/
theorem rva_to_offset_correct_witness :
    rva_to_offset [⟨ascii ".text" ++ padZ 3, 0x200, 0x1000, 0x200, 0x400, 0x60000020⟩]
        0x1050 = .ok 0x450 ∧
    rva_to_offset [⟨ascii ".text" ++ padZ 3, 0x200, 0x1000, 0x200, 0x400, 0x60000020⟩]
        0x5000 = .error .rvaUnmapped := by
  constructor
  · exact (rva_to_offset_correct
      [⟨ascii ".text" ++ padZ 3, 0x200, 0x1000, 0x200, 0x400, 0x60000020⟩] 0x1050).1
      ⟨ascii ".text" ++ padZ 3, 0x200, 0x1000, 0x200, 0x400, 0x60000020⟩
      (by decide) (by decide) (by decide)
  · exact (rva_to_offset_correct
      [⟨ascii ".text" ++ padZ 3, 0x200, 0x1000, 0x200, 0x400, 0x60000020⟩] 0x5000).2
      (by decide)

/-! Claim C7: the ordered construction checks of parse. -/

theorem readSections_error_kind (b : Buffer) :
    ∀ n off e, readSections b off n = .error e → e = .bufferOverflow := by
  intro n
  induction n with
  | zero => intro off e h; simp [readSections] at h
  | succ m ih =>
    intro off e h
    simp only [readSections] at h
    cases hr : readSectionHeader? b off with
    | error e1 =>
      rw [hr] at h
      injection h with he
      have h1 : e1 = .bufferOverflow := by
        by_cases hb : off + 40 ≤ b.length
        · simp [readSectionHeader?, hb] at hr
        · simp [readSectionHeader?, hb] at hr
          first
          | exact hr
          | exact hr.symm
      exact he ▸ h1
    | ok s =>
      rw [hr] at h
      cases hrest : readSections b (off + 40) m with
      | error e2 =>
        rw [hrest] at h
        injection h with he
        exact he ▸ ih (off + 40) e2 hrest
      | ok l => rw [hrest] at h; cases h

/-- C7: parse performs its checks in order: it fails NotPE exactly when a
readable DOS header has magic other than MZ; BadNtSignature exactly when, past
a good DOS magic, the readable 4 bytes at e_lfanew differ from PE signature;
UnsupportedMachine and UnsupportedOptionalMagic likewise for the file-header
machine and the optional-header magic; and construction succeeds only when all
four checks pass. -/
theorem parse_check_order (b : Buffer) :
    (parse b = .error .notPE ↔ 64 ≤ b.length ∧ leN b 0 2 ≠ 0x5A4D) ∧
    (parse b = .error .badNtSignature ↔
      64 ≤ b.length ∧ leN b 0 2 = 0x5A4D ∧ leN b 60 4 + 4 ≤ b.length ∧
        leN b (leN b 60 4) 4 ≠ 0x4550) ∧
    (parse b = .error .unsupportedMachine ↔
      64 ≤ b.length ∧ leN b 0 2 = 0x5A4D ∧ leN b 60 4 + 4 ≤ b.length ∧
        leN b (leN b 60 4) 4 = 0x4550 ∧ leN b 60 4 + 4 + 20 ≤ b.length ∧
        leN b (leN b 60 4 + 4) 2 ≠ 0x8664) ∧
    (parse b = .error .unsupportedOptionalMagic ↔
      64 ≤ b.length ∧ leN b 0 2 = 0x5A4D ∧ leN b 60 4 + 4 ≤ b.length ∧
        leN b (leN b 60 4) 4 = 0x4550 ∧ leN b 60 4 + 4 + 20 ≤ b.length ∧
        leN b (leN b 60 4 + 4) 2 = 0x8664 ∧ leN b 60 4 + 4 + 20 + 240 ≤ b.length ∧
        leN b (leN b 60 4 + 4 + 20) 2 ≠ 0x20B) ∧
    (∀ info, parse b = .ok info →
      leN b 0 2 = 0x5A4D ∧ leN b (leN b 60 4) 4 = 0x4550 ∧
      leN b (leN b 60 4 + 4) 2 = 0x8664 ∧ leN b (leN b 60 4 + 4 + 20) 2 = 0x20B) := by
  by_cases h1 : 64 ≤ b.length
  case neg =>
    have hp : parse b = .error .bufferOverflow := by
      simp [parse, readDosHeader?, h1]
    rw [hp]
    simp [h1]
  case pos =>
  by_cases h2 : leN b 0 2 = 0x5A4D
  case neg =>
    have hp : parse b = .error .notPE := by
      simp [parse, readDosHeader?, decodeDosHeader, h1, h2]
    rw [hp]
    simp [h1, h2]
  case pos =>
  by_cases h3 : leN b 60 4 + 4 ≤ b.length
  case neg =>
    have hp : parse b = .error .bufferOverflow := by
      simp [parse, readDosHeader?, decodeDosHeader, readU32?, readN?, h1, h2, h3]
    rw [hp]
    simp [h1, h2, h3]
  case pos =>
  by_cases h4 : leN b (leN b 60 4) 4 = 0x4550
  case neg =>
    have hp : parse b = .error .badNtSignature := by
      simp [parse, readDosHeader?, decodeDosHeader, readU32?, readN?, h1, h2, h3, h4]
    rw [hp]
    simp [h1, h2, h3, h4]
  case pos =>
  by_cases h5 : leN b 60 4 + 4 + 20 ≤ b.length
  case neg =>
    have hp : parse b = .error .bufferOverflow := by
      simp [parse, readDosHeader?, decodeDosHeader, readU32?, readN?, readFileHeader?,
        decodeFileHeader, h1, h2, h3, h4, h5]
    rw [hp]
    simp [h1, h2, h3, h4, h5]
  case pos =>
  by_cases h6 : leN b (leN b 60 4 + 4) 2 = 0x8664
  case neg =>
    have hp : parse b = .error .unsupportedMachine := by
      simp [parse, readDosHeader?, decodeDosHeader, readU32?, readN?, readFileHeader?,
        decodeFileHeader, h1, h2, h3, h4, h5, h6]
    rw [hp]
    simp [h1, h2, h3, h4, h5, h6]
  case pos =>
  by_cases h7 : leN b 60 4 + 4 + 20 + 240 ≤ b.length
  case neg =>
    have hp : parse b = .error .bufferOverflow := by
      simp [parse, readDosHeader?, decodeDosHeader, readU32?, readN?, readFileHeader?,
        decodeFileHeader, readOptionalHeader?, decodeOptionalHeader, h1, h2, h3, h4, h5, h6, h7]
    rw [hp]
    simp [h1, h2, h3, h4, h5, h6, h7]
  case pos =>
  by_cases h8 : leN b (leN b 60 4 + 4 + 20) 2 = 0x20B
  case neg =>
    have hp : parse b = .error .unsupportedOptionalMagic := by
      simp [parse, readDosHeader?, decodeDosHeader, readU32?, readN?, readFileHeader?,
        decodeFileHeader, readOptionalHeader?, decodeOptionalHeader, h1, h2, h3, h4, h5, h6,
        h7, h8]
    rw [hp]
    simp [h1, h2, h3, h4, h5, h6, h7, h8]
  case pos =>
    have hnp : ∀ e, parse b = .error e → e = .bufferOverflow := by
      intro e h
      simp only [parse, readDosHeader?, decodeDosHeader, readU32?, readN?, readFileHeader?,
        decodeFileHeader, readOptionalHeader?, decodeOptionalHeader] at h
      simp [h1, h2, h3, h4, h5, h6, h7, h8] at h
      split at h
      case _ e1 heq =>
        injection h with he
        exact he ▸ readSections_error_kind b _ _ e1 heq
      case _ => simp at h
    refine ⟨?_, ?_, ?_, ?_, ?_⟩
    · constructor
      · intro h
        exact absurd (hnp _ h) (by decide)
      · rintro ⟨_, hx⟩
        exact absurd h2 hx
    · constructor
      · intro h
        exact absurd (hnp _ h) (by decide)
      · rintro ⟨_, _, _, hx⟩
        exact absurd h4 hx
    · constructor
      · intro h
        exact absurd (hnp _ h) (by decide)
      · rintro ⟨_, _, _, _, _, hx⟩
        exact absurd h6 hx
    · constructor
      · intro h
        exact absurd (hnp _ h) (by decide)
      · rintro ⟨_, _, _, _, _, _, _, hx⟩
        exact absurd h8 hx
    · intro info _
      exact ⟨h2, h4, h6, h8⟩

/-- C7 witness: a 64-byte all-zero buffer fails NotPE (its DOS magic is 0);
scenario S2 (optional-header magic 0x10B, all earlier checks passing) fails
UnsupportedOptionalMagic. -/
theorem parse_check_order_witness :
    parse (List.replicate 64 0) = .error .notPE ∧
    parse bufPE32 = .error .unsupportedOptionalMagic := by
  constructor
  · exact (parse_check_order (List.replicate 64 0)).1.mpr (by decide)
  · exact ((parse_check_order bufPE32).2.2.2.1).mpr (by decide)

/-- C8: get_image_base returns the override when it is non-zero and the
on-disk optional-header image base otherwise; and setting the overrides back
to 0 makes get_image_base and get_entry_point return exactly the values of a
parser on which no override was ever set. -/
theorem override_semantics (p : Parser) (a e : Nat) :
    (a % 2 ^ 64 ≠ 0 → (p.override_base_address a).get_image_base = a % 2 ^ 64) ∧
    ((p.override_base_address 0).get_image_base = p.pe_info.optional_header.image_base) ∧
    (((((p.override_base_address a).override_entry_point e).override_base_address
        0).override_entry_point 0).get_image_base
      = (⟨p.buffer, p.pe_info, 0, 0⟩ : Parser).get_image_base) ∧
    (((((p.override_base_address a).override_entry_point e).override_base_address
        0).override_entry_point 0).get_entry_point
      = (⟨p.buffer, p.pe_info, 0, 0⟩ : Parser).get_entry_point) := by
  refine ⟨?_, ?_, ?_, ?_⟩
  · intro h
    simp [Parser.override_base_address, Parser.get_image_base]
    intro h0
    exact absurd h0 h
  · simp [Parser.override_base_address, Parser.get_image_base]
  · simp [Parser.override_base_address, Parser.override_entry_point, Parser.get_image_base]
  · simp [Parser.override_base_address, Parser.override_entry_point, Parser.get_entry_point,
      Parser.get_image_base]

/-- C8 witness: on a concrete parsed image (base 0x140000000, entry RVA
0x1000), overriding the base with 5 makes get_image_base return 5; setting it
to 0 returns the on-disk base; and clearing both overrides after setting them
restores the on-disk entry point 0x140001000. -/
theorem override_semantics_witness :
    ((mkParser bufS).override_base_address 5).get_image_base = 5 ∧
    ((mkParser bufS).override_base_address 0).get_image_base = 0x140000000 ∧
    (((((mkParser bufS).override_base_address 5).override_entry_point
        7).override_base_address 0).override_entry_point 0).get_entry_point
      = 0x140001000 := by
  obtain ⟨w1, w2, _, w4⟩ := override_semantics (mkParser bufS) 5 7
  refine ⟨w1 (by decide), ?_, ?_⟩
  · rw [w2]
    decide
  · rw [w4]
    decide

theorem readN?_ok_elim {b : Buffer} {off n v : Nat} (h : readN? b off n = .ok v) :
    off + n ≤ b.length ∧ v = leN b off n := by
  unfold readN? at h
  by_cases hb : off + n ≤ b.length
  · rw [if_pos hb] at h
    exact ⟨hb, (Except.ok.inj h).symm⟩
  · rw [if_neg hb] at h
    cases h

/-- If no 8-byte slot from off on reads as zero, the TLS callback loop runs
off the end of the buffer and throws BufferOverflow. -/
theorem tls_walk_no_term (b : Buffer) :
    ∀ off, (∀ k, readU64? b (off + 8 * k) ≠ .ok 0) →
      tls_callback_walk b off = .error .bufferOverflow := by
  intro off
  have H : ∀ n off, b.length + 8 - off ≤ n →
      (∀ k, readU64? b (off + 8 * k) ≠ .ok 0) →
      tls_callback_walk b off = .error .bufferOverflow := by
    intro n
    induction n with
    | zero =>
      intro off hn _
      rw [tls_callback_walk, dif_neg (by omega)]
    | succ m ih =>
      intro off hn h
      by_cases hc : off + 8 ≤ b.length
      · have hv : leN b off 8 ≠ 0 := by
          intro hz
          exact h 0 (by simp [readU64?, readN?, hc, hz])
        rw [tls_callback_walk, dif_pos hc, if_neg hv,
          ih (off + 8) (by omega) (fun k => by
            have hk := h (k + 1)
            rw [show off + 8 + 8 * k = off + 8 * (k + 1) from by ring]
            exact hk)]
      · rw [tls_callback_walk, dif_neg hc]
  exact H (b.length + 8) off (by omega)

/-- When the k-th slot from off is the first zero, the TLS callback loop
returns exactly the k preceding (non-zero) slot values. -/
theorem tls_walk_term (b : Buffer) :
    ∀ k off, readU64? b (off + 8 * k) = .ok 0 →
      (∀ j, j < k → ∃ v, readU64? b (off + 8 * j) = .ok v ∧ v ≠ 0) →
      tls_callback_walk b off =
        .ok ((List.range k).map fun j => leN b (off + 8 * j) 8) := by
  intro k
  induction k with
  | zero =>
    intro off h0 _
    obtain ⟨hb, hv⟩ := readN?_ok_elim (show readN? b (off + 8 * 0) 8 = .ok 0 from h0)
    rw [tls_callback_walk, dif_pos (by simpa using hb), if_pos (by simpa using hv.symm)]
    simp
  | succ m ih =>
    intro off h0 hj
    obtain ⟨v, hv, hvne⟩ := hj 0 (Nat.succ_pos m)
    obtain ⟨hb, hveq⟩ := readN?_ok_elim (show readN? b (off + 8 * 0) 8 = .ok v from hv)
    have hb' : off + 8 ≤ b.length := by simpa using hb
    have hlv : leN b off 8 ≠ 0 := by
      rw [show leN b off 8 = v from by simpa using hveq.symm]
      exact hvne
    rw [tls_callback_walk, dif_pos hb', if_neg hlv,
      ih (off + 8) (by rw [show off + 8 + 8 * m = off + 8 * (m + 1) from by ring]; exact h0)
        (fun j hjm => by
          obtain ⟨w, hw, hwne⟩ := hj (j + 1) (by omega)
          refine ⟨w, ?_, hwne⟩
          rw [show off + 8 + 8 * j = off + 8 * (j + 1) from by ring]
          exact hw)]
    have hlist : (List.range (m + 1)).map (fun j => leN b (off + 8 * j) 8)
        = leN b off 8 :: (List.range m).map fun j => leN b (off + 8 + 8 * j) 8 := by
      rw [List.range_succ_eq_map, List.map_cons, List.map_map]
      refine congrArg₂ _ (by simp) ?_
      apply List.map_congr_left
      intro j _
      show leN b (off + 8 * (j + 1)) 8 = leN b (off + 8 + 8 * j) 8
      rw [show off + 8 * (j + 1) = off + 8 + 8 * j from by ring]
    rw [hlist]

/-- C10: for a parsed image whose TLS directory has a non-zero
address_of_callbacks whose truncated value maps to file offset coff: if no
8-byte slot from coff on reads as zero, get_tls_directory fails with
BufferOverflow and no partial callback list is returned; and when the k-th
slot is the first zero, the result is exactly the k non-zero values before
it. -/
theorem get_tls_directory_callbacks (p : Parser) (dir : DataDirectory)
    (off coff : Nat) (tls : TlsDirectory64)
    (hdir : p.pe_info.data_directories.getD 9 ⟨0, 0⟩ = dir)
    (hva : ¬ dir.virtual_address = 0)
    (hoff : rva_to_offset p.pe_info.section_headers dir.virtual_address = .ok off)
    (htls : readTlsDirectory64? p.buffer off = .ok tls)
    (hcb : ¬ tls.address_of_callbacks = 0)
    (hcoff : rva_to_offset p.pe_info.section_headers
      (tls.address_of_callbacks % 2 ^ 32) = .ok coff) :
    ((∀ k, readU64? p.buffer (coff + 8 * k) ≠ .ok 0) →
      p.get_tls_directory = .error .bufferOverflow) ∧
    (∀ k, readU64? p.buffer (coff + 8 * k) = .ok 0 →
      (∀ j, j < k → ∃ v, readU64? p.buffer (coff + 8 * j) = .ok v ∧ v ≠ 0) →
      p.get_tls_directory =
        .ok (tls, (List.range k).map fun j => leN p.buffer (coff + 8 * j) 8)) := by
  have hshape : p.get_tls_directory =
      (match tls_callback_walk p.buffer coff with
       | .error e => .error e
       | .ok cbs => .ok (tls, cbs)) := by
    simp only [Parser.get_tls_directory]
    rw [hdir, if_neg hva]
    simp only [hoff, htls, if_neg hcb, hcoff]
  constructor
  · intro h
    rw [hshape, tls_walk_no_term p.buffer coff h]
  · intro k h0 hj
    rw [hshape, tls_walk_term p.buffer k coff h0 hj]

/-- C10 witness: on the concrete TLS image with callbacks 0x140001100,
0x140001200 and a zero terminator the full list is returned; on the variant
whose callback array reaches the buffer end with no zero slot the call fails
with BufferOverflow. -/
theorem get_tls_directory_callbacks_witness :
    pT.get_tls_directory
      = .ok (⟨0, 0, 0, 0x1030, 0, 0⟩, [0x140001100, 0x140001200]) ∧
    pT2.get_tls_directory = .error .bufferOverflow := by
  constructor
  · have h := (get_tls_directory_callbacks pT ⟨0x1000, 40⟩ 368 416 ⟨0, 0, 0, 0x1030, 0, 0⟩
      (by decide) (by decide) (by decide) (by decide) (by decide) (by decide)).2 2
      (by decide)
      (by
        intro j hj
        interval_cases j
        · exact ⟨0x140001100, by decide, by decide⟩
        · exact ⟨0x140001200, by decide, by decide⟩)
    exact h
  · apply (get_tls_directory_callbacks pT2 ⟨0x1000, 40⟩ 368 416 ⟨0, 0, 0, 0x1030, 0, 0⟩
      (by decide) (by decide) (by decide) (by decide) (by decide) (by decide)).1
    intro k
    cases k with
    | zero => decide
    | succ k =>
      intro hk
      have hlen : pT2.buffer.length = 430 := by decide
      have hb : ¬ (416 + 8 * (k + 1) + 8 ≤ pT2.buffer.length) := by omega
      rw [readU64?, readN?, if_neg hb] at hk
      cases hk

/-- On the cyclic-chain image, no recursion depth resolves the chain: each
step reads back the same runtime function. -/
theorem resolveX_diverges :
    ∀ fuel, resolve_chained_function_fuel bufX (infoOrDefault bufX).section_headers
      fuel funcX = none := by
  intro fuel
  induction fuel with
  | zero => rfl
  | succ n ih =>
    have hstep : resolve_chained_function_fuel bufX (infoOrDefault bufX).section_headers
        (n + 1) funcX
        = resolve_chained_function_fuel bufX (infoOrDefault bufX).section_headers n funcX :=
      rfl
    rw [hstep, ih]

/-- C2 counterexample: a parsed image with one exception-directory entry whose
unwind info has the chain flag set and whose chained runtime function points
back at the same unwind info; get_exception_directory never returns on it
(the source recursion of resolve_chained_function is unbounded). -/
theorem exception_chain_cycle_diverges :
    exception_directory_diverges pX ∧ (parse bufX).isOk = true := by
  constructor
  · intro fuel
    have hres := resolveX_diverges fuel
    have hshape : pX.get_exception_directory_fuel fuel
        = exception_entries_fuel bufX (infoOrDefault bufX).section_headers 368 fuel 0 1 := rfl
    rw [hshape]
    simp only [exception_entries_fuel,
      show readRuntimeFunction? bufX (368 + 12 * 0) = .ok funcX from by decide, hres]
  · decide

/-- C2 (amended): the terminator-driven walks are bounded: the TLS-callback
walk, the import-ILT walk and the import-descriptor walk each finish within
buffer-length-bounded iterations (the fuel-indexed mirrors at fuel
buffer-length + 1 already compute them), while the count-driven exception,
debug, relocation-entry and export loops iterate an explicitly counted number
of times by construction; chained-unwind resolution is the exception and can
recurse forever (see the counterexample). -/
theorem walks_bounded_except_chain (b : Buffer) (secs : List SectionHeader)
    (iat off idx : Nat) :
    tls_walk_fuel b off (b.length + 1) = some (tls_callback_walk b off) ∧
    ilt_walk_fuel b secs iat off idx (b.length + 1)
      = some (ilt_walk b secs iat off idx) ∧
    import_desc_walk_fuel b secs off (b.length + 1)
      = some (import_desc_walk b secs off) :=
  ⟨tls_walk_fuel_len b off, ilt_walk_fuel_len b secs iat off idx,
    import_desc_walk_fuel_len b secs off⟩

/-- A record the get_pdb_url scan does not use is skipped: the scan of the
tail decides the result. -/
theorem pdb_scan_skip (r : DebugDirectory × Option (List Nat))
    (l : List (DebugDirectory × Option (List Nat)))
    (h : cv_record_used r = false) :
    pdb_url_from_records (r :: l) = pdb_url_from_records l := by
  obtain ⟨entry, dataOpt⟩ := r
  simp only [pdb_url_from_records]
  by_cases ht : entry.type_ = 2
  case neg => rw [if_pos ht]
  case pos =>
    rw [if_neg (by simp [ht])]
    cases dataOpt with
    | none => rfl
    | some data =>
      simp only []
      by_cases h4 : data.length < 4
      · rw [if_pos h4]
      · rw [if_neg h4]
        by_cases hR : leN data 0 4 = 0x53445352
        · rw [if_pos hR]
          by_cases h25 : data.length < 25
          · rw [if_pos h25]
          · rw [if_neg h25]
            have hnul : ¬ (data.drop 24).contains 0 = true := by
              intro hcon
              have hused : cv_record_used (entry, some data) = true := by
                simp [cv_record_used, ht, hR, show 4 ≤ data.length from by omega,
                  show 25 ≤ data.length from by omega]
                simpa using hcon
              rw [h] at hused
              cases hused
            rw [cstrUpTo?, if_neg hnul]
        · rw [if_neg hR]
          by_cases hN : leN data 0 4 = 0x3031424E
          · rw [if_pos hN]
            by_cases h17 : data.length < 17
            · rw [if_pos h17]
            · rw [if_neg h17]
              have hnul : ¬ (data.drop 16).contains 0 = true := by
                intro hcon
                have hused : cv_record_used (entry, some data) = true := by
                  simp [cv_record_used, ht, hN, hR, show 4 ≤ data.length from by omega,
                    show 17 ≤ data.length from by omega]
                  simpa using hcon
                rw [h] at hused
                cases hused
              rw [cstrUpTo?, if_neg hnul]
          · rw [if_neg hN]

/-- A prefix of unused records does not change the scan's result. -/
theorem pdb_scan_skip_all (junk : List (DebugDirectory × Option (List Nat)))
    (l : List (DebugDirectory × Option (List Nat)))
    (h : ∀ r ∈ junk, cv_record_used r = false) :
    pdb_url_from_records (junk ++ l) = pdb_url_from_records l := by
  induction junk with
  | nil => rfl
  | cons r rest ih =>
    rw [List.cons_append, pdb_scan_skip r (rest ++ l) (h r (List.mem_cons_self r rest)),
      ih (fun s hs => h s (List.mem_cons_of_mem r hs))]

/-- The scan returns the RSDS symbol-server URL at a usable CodeView record:
type 2, payload at least 25 bytes, RSDS signature, and a NUL after the
24-byte CV_INFO_PDB70 prefix. -/
theorem pdb_scan_rsds (entry : DebugDirectory) (payload : List Nat)
    (rest : List (DebugDirectory × Option (List Nat)))
    (ht : entry.type_ = 2) (hsig : leN payload 0 4 = 0x53445352)
    (hlen : 25 ≤ payload.length) (hnul : (payload.drop 24).contains 0 = true) :
    pdb_url_from_records ((entry, some payload) :: rest)
      = some (rsds_url_spec payload) := by
  simp only [pdb_url_from_records]
  rw [if_neg (by simp [ht]), if_neg (show ¬ payload.length < 4 from by omega),
    if_pos hsig, if_neg (show ¬ payload.length < 25 from by omega),
    cstrUpTo?, if_pos hnul]
  rfl

/-- C6: for every parsed image whose debug directory reads successfully and
whose first usable CodeView record is RSDS, get_pdb_url returns the
symbol-server URL built per the spec: basename of the embedded path, the GUID
as 32 uppercase hex digits in registry order, and the age in decimal
(rsds_url_spec restates that template from the claim's words). -/
theorem get_pdb_url_rsds (p : Parser)
    (recs junk rest : List (DebugDirectory × Option (List Nat)))
    (entry : DebugDirectory) (payload : List Nat)
    (hdbg : p.get_debug_directory = .ok recs)
    (hrecs : recs = junk ++ (entry, some payload) :: rest)
    (hjunk : ∀ r ∈ junk, cv_record_used r = false)
    (ht : entry.type_ = 2) (hsig : leN payload 0 4 = 0x53445352)
    (hlen : 25 ≤ payload.length) (hnul : (payload.drop 24).contains 0 = true) :
    p.get_pdb_url = .ok (some (rsds_url_spec payload)) := by
  have hshape : p.get_pdb_url = .ok (pdb_url_from_records recs) := by
    simp only [Parser.get_pdb_url, hdbg]
  rw [hshape, hrecs, pdb_scan_skip_all junk _ hjunk,
    pdb_scan_rsds entry payload rest ht hsig hlen hnul]

/-- C6 witness: the concrete image whose single CodeView record is RSDS with
GUID {0x11223344, 0x5566, 0x7788, {99 AA BB CC DD EE FF 00}}, age 0x1A and
path c:\x\foo.pdb produces scenario S5's URL byte for byte. -/
theorem get_pdb_url_rsds_witness :
    pD.get_pdb_url = .ok (some (rsds_url_spec rsdsPayload)) ∧
    rsds_url_spec rsdsPayload = ascii
      "https://msdl.microsoft.com/download/symbols/foo.pdb/112233445566778899AABBCCDDEEFF0026/foo.pdb" := by
  constructor
  · exact get_pdb_url_rsds pD [(⟨0, 0, 0, 0, 2, 37, 0, 396⟩, some rsdsPayload)] []
      [] ⟨0, 0, 0, 0, 2, 37, 0, 396⟩ rsdsPayload
      (by decide) (by decide) (by simp) (by decide) (by decide) (by decide) (by decide)
  · decide

/-- The ILT walk succeeds exactly by reading non-zero 8-byte slots up to a
zero terminator, and builds each entry from its slot: IAT thunk at stride 8,
ordinal import when bit 63 is set, name import otherwise. -/
theorem ilt_walk_spec (b : Buffer) (secs : List SectionHeader) (iat : Nat) :
    ∀ entries off idx, ilt_walk b secs iat off idx = .ok entries →
      readU64? b (off + 8 * entries.length) = .ok 0 ∧
      ∀ j, j < entries.length →
        ∃ v, readU64? b (off + 8 * j) = .ok v ∧ v ≠ 0 ∧
          ∃ en, entries.get? j = some en ∧
            en.thunk_rva = (iat + 8 * (idx + j)) % 2 ^ 64 ∧
            (2 ^ 63 ≤ v → en.ordinal = v % 2 ^ 16 ∧ en.name = none) ∧
            (v < 2 ^ 63 → ∃ noff,
              rva_to_offset secs (v % 2 ^ 31) = .ok noff ∧
              en.ordinal = 0 ∧ en.name = some (cstrAt b (noff + 2))) := by
  intro entries
  induction entries with
  | nil =>
    intro off idx h
    rw [ilt_walk] at h
    by_cases hc : off + 8 ≤ b.length
    case neg => rw [dif_neg hc] at h; cases h
    case pos =>
      rw [dif_pos hc] at h
      by_cases hv : leN b off 8 = 0
      case pos =>
        refine ⟨by simp [readU64?, readN?, hc, hv], ?_⟩
        intro j hj
        exact absurd hj (by simp)
      case neg =>
        rw [if_neg hv] at h
        by_cases ho : 2 ^ 63 ≤ leN b off 8
        · rw [if_pos ho] at h
          cases hrec : ilt_walk b secs iat (off + 8) (idx + 1) with
          | error e => rw [hrec] at h; simp only [] at h; cases h
          | ok rest => rw [hrec] at h; simp only [] at h; cases h
        · rw [if_neg ho] at h
          cases hr : rva_to_offset secs (leN b off 8 % 2 ^ 31) with
          | error e => rw [hr] at h; simp only [] at h; cases h
          | ok noff =>
            rw [hr] at h; simp only [] at h
            cases hrec : ilt_walk b secs iat (off + 8) (idx + 1) with
            | error e => rw [hrec] at h; simp only [] at h; cases h
            | ok rest => rw [hrec] at h; simp only [] at h; cases h
  | cons en tl ih =>
    intro off idx h
    rw [ilt_walk] at h
    by_cases hc : off + 8 ≤ b.length
    case neg => rw [dif_neg hc] at h; cases h
    case pos =>
      rw [dif_pos hc] at h
      by_cases hv : leN b off 8 = 0
      case pos => rw [if_pos hv] at h; cases h
      case neg =>
        rw [if_neg hv] at h
        have hlen : off + 8 * (en :: tl).length = off + 8 + 8 * tl.length := by
          simp [List.length_cons]
          ring
        by_cases ho : 2 ^ 63 ≤ leN b off 8
        · rw [if_pos ho] at h
          cases hrec : ilt_walk b secs iat (off + 8) (idx + 1) with
          | error e => rw [hrec] at h; simp only [] at h; cases h
          | ok rest =>
            rw [hrec] at h; simp only [] at h
            injection h with h1
            injection h1 with h2 h3
            obtain ⟨hterm, hind⟩ := ih (off + 8) (idx + 1) (h3 ▸ hrec)
            refine ⟨by rw [hlen]; exact hterm, ?_⟩
            intro j hj
            cases j with
            | zero =>
              refine ⟨leN b off 8, by simp [readU64?, readN?, hc], hv,
                en, rfl, ?_, ?_, ?_⟩
              · rw [← h2]
                simp
              · intro _
                rw [← h2]
                exact ⟨rfl, rfl⟩
              · intro hlt
                exact absurd ho (by omega)
            | succ m =>
              have hm : m < tl.length := by simpa using hj
              obtain ⟨v, hrd, hvne, en', hget, hthunk, hord, hname⟩ := hind m hm
              refine ⟨v, ?_, hvne, en', by simpa using hget, ?_, hord, hname⟩
              · rw [show off + 8 * (m + 1) = off + 8 + 8 * m from by ring]
                exact hrd
              · rw [hthunk, show idx + 1 + m = idx + (m + 1) from by ring]
        · rw [if_neg ho] at h
          cases hr : rva_to_offset secs (leN b off 8 % 2 ^ 31) with
          | error e => rw [hr] at h; simp only [] at h; cases h
          | ok noff =>
            rw [hr] at h; simp only [] at h
            cases hrec : ilt_walk b secs iat (off + 8) (idx + 1) with
            | error e => rw [hrec] at h; simp only [] at h; cases h
            | ok rest =>
              rw [hrec] at h; simp only [] at h
              injection h with h1
              injection h1 with h2 h3
              obtain ⟨hterm, hind⟩ := ih (off + 8) (idx + 1) (h3 ▸ hrec)
              refine ⟨by rw [hlen]; exact hterm, ?_⟩
              intro j hj
              cases j with
              | zero =>
                refine ⟨leN b off 8, by simp [readU64?, readN?, hc], hv,
                  en, rfl, ?_, ?_, ?_⟩
                · rw [← h2]
                  simp
                · intro hge
                  exact absurd hge ho
                · intro _
                  exact ⟨noff, hr, by rw [← h2], by rw [← h2]⟩
              | succ m =>
                have hm : m < tl.length := by simpa using hj
                obtain ⟨v, hrd, hvne, en', hget, hthunk, hord, hname⟩ := hind m hm
                refine ⟨v, ?_, hvne, en', by simpa using hget, ?_, hord, hname⟩
                · rw [show off + 8 * (m + 1) = off + 8 + 8 * m from by ring]
                  exact hrd
                · rw [hthunk, show idx + 1 + m = idx + (m + 1) from by ring]

/-- Every per-DLL record emitted by the descriptor walk comes from a
descriptor at some offset: non-zero ILT RVA, resolved name and ILT offsets,
and entries produced by the ILT walk from index 0. -/
theorem import_desc_walk_mem (b : Buffer) (secs : List SectionHeader) :
    ∀ dirs off, import_desc_walk b secs off = .ok dirs →
      ∀ dll entries, (dll, entries) ∈ dirs →
        ∃ descOff nameOff lookOff,
          (decodeImportDescriptor b descOff).import_lookup_table_rva ≠ 0 ∧
          rva_to_offset secs (decodeImportDescriptor b descOff).name_rva = .ok nameOff ∧
          dll = cstrAt b nameOff ∧
          rva_to_offset secs
            (decodeImportDescriptor b descOff).import_lookup_table_rva = .ok lookOff ∧
          ilt_walk b secs (decodeImportDescriptor b descOff).import_address_table_rva
            lookOff 0 = .ok entries := by
  intro dirs
  induction dirs with
  | nil =>
    intro off h dll entries hmem
    cases hmem
  | cons d rest ih =>
    intro off h dll entries hmem
    rw [import_desc_walk] at h
    by_cases hc : off + 20 ≤ b.length
    case neg => rw [dif_neg hc] at h; cases h
    case pos =>
      rw [dif_pos hc] at h
      by_cases hz : (decodeImportDescriptor b off).import_lookup_table_rva = 0
      case pos => rw [if_pos hz] at h; cases h
      case neg =>
        rw [if_neg hz] at h
        cases hn : rva_to_offset secs (decodeImportDescriptor b off).name_rva with
        | error e =>
          simp only [hn, error_bind] at h
          cases h
        | ok nameOff =>
          simp only [hn, ok_bind] at h
          cases hl : rva_to_offset secs
              (decodeImportDescriptor b off).import_lookup_table_rva with
          | error e =>
            simp only [hl, error_bind] at h
            cases h
          | ok lookOff =>
            simp only [hl, ok_bind] at h
            cases hw : ilt_walk b secs
                (decodeImportDescriptor b off).import_address_table_rva lookOff 0 with
            | error e =>
              simp only [hw, error_bind] at h
              cases h
            | ok entries1 =>
              simp only [hw, ok_bind] at h
              cases hrest : import_desc_walk b secs (off + 20) with
              | error e =>
                simp only [hrest, error_bind] at h
                cases h
              | ok rest1 =>
                simp only [hrest, ok_bind] at h
                injection h with h1
                injection h1 with h2 h3
                rcases List.mem_cons.mp hmem with hd | hm
                · have hpair : (dll, entries) = (cstrAt b nameOff, entries1) :=
                    hd.trans h2.symm
                  injection hpair with hfst hsnd
                  refine ⟨off, nameOff, lookOff, hz, hn, hfst, hl, ?_⟩
                  rw [hsnd]
                  exact hw
                · exact ih (off + 20) (h3 ▸ hrest) dll entries hm

/-- C5: for every import descriptor emitted by get_import_directory there is
a descriptor whose ILT maps to an offset at which the entries are exactly the
non-zero 64-bit slots before the first zero slot: the j-th entry has IAT
thunk import_address_table_rva + 8 j, is an ordinal import (low 16 bits, no
name) when slot bit 63 is set, and otherwise a name import whose name is the
NUL-terminated string 2 bytes past the offset mapped from slot mod 2^31. -/
theorem get_import_directory_entries (p : Parser)
    (dirs : List (List Nat × List ImportEntry)) (dll : List Nat)
    (entries : List ImportEntry)
    (hok : p.get_import_directory = .ok dirs)
    (hmem : (dll, entries) ∈ dirs) :
    ∃ descOff lookOff,
      (decodeImportDescriptor p.buffer descOff).import_lookup_table_rva ≠ 0 ∧
      rva_to_offset p.pe_info.section_headers
        (decodeImportDescriptor p.buffer descOff).import_lookup_table_rva = .ok lookOff ∧
      readU64? p.buffer (lookOff + 8 * entries.length) = .ok 0 ∧
      ∀ j, j < entries.length →
        ∃ v, readU64? p.buffer (lookOff + 8 * j) = .ok v ∧ v ≠ 0 ∧
          ∃ en, entries.get? j = some en ∧
            en.thunk_rva = ((decodeImportDescriptor p.buffer descOff).import_address_table_rva
              + 8 * j) % 2 ^ 64 ∧
            (2 ^ 63 ≤ v → en.ordinal = v % 2 ^ 16 ∧ en.name = none) ∧
            (v < 2 ^ 63 → ∃ noff,
              rva_to_offset p.pe_info.section_headers (v % 2 ^ 31) = .ok noff ∧
              en.ordinal = 0 ∧ en.name = some (cstrAt p.buffer (noff + 2))) := by
  simp only [Parser.get_import_directory] at hok
  by_cases hva : (p.pe_info.data_directories.getD 1 ⟨0, 0⟩).virtual_address = 0
  · rw [if_pos hva] at hok
    injection hok with h1
    rw [← h1] at hmem
    cases hmem
  · rw [if_neg hva] at hok
    cases hoff : rva_to_offset p.pe_info.section_headers
        (p.pe_info.data_directories.getD 1 ⟨0, 0⟩).virtual_address with
    | error e => rw [hoff] at hok; simp only [] at hok; cases hok
    | ok off =>
      rw [hoff] at hok; simp only [] at hok
      obtain ⟨descOff, nameOff, lookOff, hz, _, _, hl, hw⟩ :=
        import_desc_walk_mem p.buffer p.pe_info.section_headers dirs off hok dll entries hmem
      obtain ⟨hterm, hind⟩ := ilt_walk_spec p.buffer p.pe_info.section_headers
        (decodeImportDescriptor p.buffer descOff).import_address_table_rva
        entries lookOff 0 hw
      refine ⟨descOff, lookOff, hz, hl, hterm, ?_⟩
      intro j hj
      obtain ⟨v, hrd, hvne, en, hget, hthunk, hord, hname⟩ := hind j hj
      exact ⟨v, hrd, hvne, en, hget, by simpa using hthunk, hord, hname⟩

/-- C5 witness: the concrete import image yields one descriptor with an
ordinal import 0x42 (thunk 0x2000) and a name import (thunk 0x2008), and the
theorem's characterization applies to it. -/
theorem get_import_directory_entries_witness :
    pI.get_import_directory
      = .ok [([68], [⟨0x42, none, 0x2000⟩, ⟨0, some [70, 110], 0x2008⟩])] ∧
    (∃ descOff lookOff,
      (decodeImportDescriptor pI.buffer descOff).import_lookup_table_rva ≠ 0 ∧
      rva_to_offset pI.pe_info.section_headers
        (decodeImportDescriptor pI.buffer descOff).import_lookup_table_rva = .ok lookOff ∧
      readU64? pI.buffer (lookOff + 8 * ([⟨0x42, none, 0x2000⟩,
        ⟨0, some [70, 110], 0x2008⟩] : List ImportEntry).length) = .ok 0 ∧
      ∀ j, j < ([⟨0x42, none, 0x2000⟩, ⟨0, some [70, 110], 0x2008⟩] : List ImportEntry).length →
        ∃ v, readU64? pI.buffer (lookOff + 8 * j) = .ok v ∧ v ≠ 0 ∧
          ∃ en, ([⟨0x42, none, 0x2000⟩, ⟨0, some [70, 110], 0x2008⟩]
              : List ImportEntry).get? j = some en ∧
            en.thunk_rva = ((decodeImportDescriptor pI.buffer descOff).import_address_table_rva
              + 8 * j) % 2 ^ 64 ∧
            (2 ^ 63 ≤ v → en.ordinal = v % 2 ^ 16 ∧ en.name = none) ∧
            (v < 2 ^ 63 → ∃ noff,
              rva_to_offset pI.pe_info.section_headers (v % 2 ^ 31) = .ok noff ∧
              en.ordinal = 0 ∧ en.name = some (cstrAt pI.buffer (noff + 2)))) := by
  have hok : pI.get_import_directory
      = .ok [([68], [⟨0x42, none, 0x2000⟩, ⟨0, some [70, 110], 0x2008⟩])] := by
    have hw : import_desc_walk bufI (infoOrDefault bufI).section_headers 368
        = .ok [([68], [⟨0x42, none, 0x2000⟩, ⟨0, some [70, 110], 0x2008⟩])] :=
      import_desc_walk_eval (by decide)
    have he : pI.get_import_directory
        = import_desc_walk bufI (infoOrDefault bufI).section_headers 368 := rfl
    rw [he, hw]
  exact ⟨hok, get_import_directory_entries pI _ [68]
    [⟨0x42, none, 0x2000⟩, ⟨0, some [70, 110], 0x2008⟩] hok (by decide)⟩

/-- Inversion of one export-entry construction: the three table reads succeed
and every field of the entry is computed from them as the source does. -/
theorem export_entry_at_spec {b : Buffer} {secs : List SectionHeader}
    {dir : DataDirectory} {base imageBase fnsOff namesOff ordsOff i : Nat}
    {en : ExportEntry}
    (h : export_entry_at b secs dir base imageBase fnsOff namesOff ordsOff i = .ok en) :
    ∃ nameRva ordinal frva,
      readU32? b (namesOff + 4 * i) = .ok nameRva ∧
      readU16? b (ordsOff + 2 * i) = .ok ordinal ∧
      readU32? b (fnsOff + 4 * ordinal) = .ok frva ∧
      en.public_ordinal = (ordinal + base) % 2 ^ 32 ∧
      en.forwarder_ordinal = (if dir.virtual_address ≤ frva ∧
          frva < (dir.virtual_address + dir.size) % 2 ^ 32 then some ordinal else none) ∧
      en.address = (if frva = 0 then 0 else (imageBase + frva) % 2 ^ 64) := by
  unfold export_entry_at at h
  cases h1 : readU32? b (namesOff + 4 * i) with
  | error e => rw [h1] at h; simp only [] at h; cases h
  | ok nameRva =>
    rw [h1] at h; simp only [] at h
    cases h2 : readU16? b (ordsOff + 2 * i) with
    | error e => rw [h2] at h; simp only [] at h; cases h
    | ok ordinal =>
      rw [h2] at h; simp only [] at h
      cases h3 : readU32? b (fnsOff + 4 * ordinal) with
      | error e => rw [h3] at h; simp only [] at h; cases h
      | ok frva =>
        rw [h3] at h; simp only [] at h
        cases h4 : (if nameRva ≠ 0 then
            match rva_to_offset secs nameRva with
            | .error e => .error e
            | .ok noff => .ok (cstrAt b noff)
          else (.ok [] : Except PEError (List Nat))) with
        | error e => rw [h4] at h; simp only [] at h; cases h
        | ok name =>
          rw [h4] at h; simp only [] at h
          injection h with h5
          refine ⟨nameRva, ordinal, frva, rfl, rfl, h3, ?_, ?_, ?_⟩ <;> rw [← h5]

/-- The export name loop builds exactly n entries, the j-th one by
export_entry_at at index i + j. -/
theorem export_entries_loop_spec (b : Buffer) (secs : List SectionHeader)
    (dir : DataDirectory) (base imageBase fnsOff namesOff ordsOff : Nat) :
    ∀ n i l, export_entries_loop b secs dir base imageBase fnsOff namesOff ordsOff i n
        = .ok l →
      l.length = n ∧ ∀ j, j < n → ∃ en, l.get? j = some en ∧
        export_entry_at b secs dir base imageBase fnsOff namesOff ordsOff (i + j)
          = .ok en := by
  intro n
  induction n with
  | zero =>
    intro i l h
    simp only [export_entries_loop] at h
    injection h with h1
    refine ⟨by rw [← h1]; rfl, ?_⟩
    intro j hj
    exact absurd hj (by omega)
  | succ m ih =>
    intro i l h
    simp only [export_entries_loop] at h
    cases h1 : export_entry_at b secs dir base imageBase fnsOff namesOff ordsOff i with
    | error e => rw [h1] at h; simp only [] at h; cases h
    | ok en0 =>
      rw [h1] at h; simp only [] at h
      cases h2 : export_entries_loop b secs dir base imageBase fnsOff namesOff ordsOff
          (i + 1) m with
      | error e => rw [h2] at h; simp only [] at h; cases h
      | ok tl =>
        rw [h2] at h; simp only [] at h
        injection h with h3
        obtain ⟨hlen, hind⟩ := ih (i + 1) tl h2
        constructor
        · rw [← h3]
          simp [hlen]
        · intro j hj
          cases j with
          | zero =>
            exact ⟨en0, by rw [← h3]; rfl, by simpa using h1⟩
          | succ k =>
            obtain ⟨en, hget, hat⟩ := hind k (by omega)
            refine ⟨en, by rw [← h3]; simpa using hget, ?_⟩
            rw [show i + (k + 1) = i + 1 + k from by ring]
            exact hat

/-- Full characterization of a successful get_export_directory call: the
entry count is number_of_names and each entry's fields come from the name,
ordinal and function tables as the source computes them. -/
theorem export_directory_core (p : Parser) (et : ExportDirectory)
    (entries : List ExportEntry) (dir : DataDirectory)
    (hdir : p.pe_info.data_directories.getD 0 ⟨0, 0⟩ = dir)
    (hva : ¬ dir.virtual_address = 0)
    (hok : p.get_export_directory = .ok (et, entries)) :
    entries.length = et.number_of_names ∧
    ∃ fnsOff namesOff ordsOff,
      rva_to_offset p.pe_info.section_headers et.address_of_functions = .ok fnsOff ∧
      rva_to_offset p.pe_info.section_headers et.address_of_names = .ok namesOff ∧
      rva_to_offset p.pe_info.section_headers et.address_of_name_ordinals = .ok ordsOff ∧
      ∀ i, i < entries.length →
        ∃ nameRva ordinal frva en,
          readU32? p.buffer (namesOff + 4 * i) = .ok nameRva ∧
          readU16? p.buffer (ordsOff + 2 * i) = .ok ordinal ∧
          readU32? p.buffer (fnsOff + 4 * ordinal) = .ok frva ∧
          entries.get? i = some en ∧
          en.public_ordinal = (ordinal + et.base) % 2 ^ 32 ∧
          en.forwarder_ordinal = (if dir.virtual_address ≤ frva ∧
              frva < (dir.virtual_address + dir.size) % 2 ^ 32 then some ordinal
            else none) ∧
          en.address = (if frva = 0 then 0
            else (p.get_image_base + frva) % 2 ^ 64) := by
  simp only [Parser.get_export_directory] at hok
  rw [hdir, if_neg hva] at hok
  cases ho1 : rva_to_offset p.pe_info.section_headers dir.virtual_address with
  | error e => rw [ho1] at hok; simp only [] at hok; cases hok
  | ok off =>
    rw [ho1] at hok; simp only [] at hok
    cases ho2 : readExportDirectory? p.buffer off with
    | error e => rw [ho2] at hok; simp only [] at hok; cases hok
    | ok et0 =>
      rw [ho2] at hok; simp only [] at hok
      cases ho3 : (if et0.name_rva ≠ 0 then
          match rva_to_offset p.pe_info.section_headers et0.name_rva with
          | .error e => .error e
          | .ok noff => .ok (cstrAt p.buffer noff)
        else (.ok [] : Except PEError (List Nat))) with
      | error e => rw [ho3] at hok; simp only [] at hok; cases hok
      | ok _nm =>
        rw [ho3] at hok; simp only [] at hok
        cases ho4 : rva_to_offset p.pe_info.section_headers et0.address_of_functions with
        | error e => rw [ho4] at hok; simp only [] at hok; cases hok
        | ok fnsOff =>
          rw [ho4] at hok; simp only [] at hok
          cases ho5 : rva_to_offset p.pe_info.section_headers et0.address_of_names with
          | error e => rw [ho5] at hok; simp only [] at hok; cases hok
          | ok namesOff =>
            rw [ho5] at hok; simp only [] at hok
            cases ho6 : rva_to_offset p.pe_info.section_headers
                et0.address_of_name_ordinals with
            | error e => rw [ho6] at hok; simp only [] at hok; cases hok
            | ok ordsOff =>
              rw [ho6] at hok; simp only [] at hok
              cases ho7 : export_entries_loop p.buffer p.pe_info.section_headers dir
                  et0.base p.get_image_base fnsOff namesOff ordsOff 0
                  et0.number_of_names with
              | error e => rw [ho7] at hok; simp only [] at hok; cases hok
              | ok l =>
                rw [ho7] at hok; simp only [] at hok
                injection hok with h8
                injection h8 with h9 h10
                obtain ⟨hlen, hind⟩ :=
                  export_entries_loop_spec p.buffer p.pe_info.section_headers dir
                    et0.base p.get_image_base fnsOff namesOff ordsOff
                    et0.number_of_names 0 l ho7
                subst h9
                subst h10
                refine ⟨hlen, fnsOff, namesOff, ordsOff, ho4, ho5, ho6, ?_⟩
                intro i hi
                obtain ⟨en, hget, hat⟩ := hind i (by omega)
                obtain ⟨nameRva, ordinal, frva, hr1, hr2, hr3, hf1, hf2, hf3⟩ :=
                  export_entry_at_spec (by simpa using hat)
                exact ⟨nameRva, ordinal, frva, en, hr1, hr2, hr3, hget, hf1, hf2, hf3⟩

/-- C4: for every parsed image with a non-empty export directory, a
successful get_export_directory emits number_of_names entries; the i-th has
public ordinal = table ordinal + base (uint32), is marked forwarder with
forwarder_ordinal = that table ordinal exactly when its function RVA lies in
the directory's [virtual_address, virtual_address + size) range, and reports
address 0 for a zero function RVA and effective image_base + function_rva
(uint64) otherwise. -/
theorem get_export_directory_entries (p : Parser) (et : ExportDirectory)
    (entries : List ExportEntry) (dir : DataDirectory)
    (hdir : p.pe_info.data_directories.getD 0 ⟨0, 0⟩ = dir)
    (hva : ¬ dir.virtual_address = 0)
    (hok : p.get_export_directory = .ok (et, entries)) :
    entries.length = et.number_of_names ∧
    ∃ fnsOff namesOff ordsOff,
      rva_to_offset p.pe_info.section_headers et.address_of_functions = .ok fnsOff ∧
      rva_to_offset p.pe_info.section_headers et.address_of_names = .ok namesOff ∧
      rva_to_offset p.pe_info.section_headers et.address_of_name_ordinals = .ok ordsOff ∧
      ∀ i, i < entries.length →
        ∃ nameRva ordinal frva en,
          readU32? p.buffer (namesOff + 4 * i) = .ok nameRva ∧
          readU16? p.buffer (ordsOff + 2 * i) = .ok ordinal ∧
          readU32? p.buffer (fnsOff + 4 * ordinal) = .ok frva ∧
          entries.get? i = some en ∧
          en.public_ordinal = (ordinal + et.base) % 2 ^ 32 ∧
          en.forwarder_ordinal = (if dir.virtual_address ≤ frva ∧
              frva < (dir.virtual_address + dir.size) % 2 ^ 32 then some ordinal
            else none) ∧
          en.address = (if frva = 0 then 0
            else (p.get_image_base + frva) % 2 ^ 64) :=
  export_directory_core p et entries dir hdir hva hok

/-- C4 witness: the concrete export image has one entry, public ordinal 1
(table ordinal 0 + base 1), forwarder-marked (its function RVA 0x1050 lies in
[0x1000, 0x1100)), address 0x140001050. -/
theorem get_export_directory_entries_witness :
    pE.get_export_directory = .ok (⟨0, 1, 1, 1, 0x1028, 0x102C, 0x1030⟩,
      [⟨[70], 1, some 0, 0x140001050⟩]) ∧
    ([⟨[70], 1, some 0, 0x140001050⟩] : List ExportEntry).length = 1 ∧
    (∃ fnsOff namesOff ordsOff,
      rva_to_offset pE.pe_info.section_headers 0x1028 = .ok fnsOff ∧
      rva_to_offset pE.pe_info.section_headers 0x102C = .ok namesOff ∧
      rva_to_offset pE.pe_info.section_headers 0x1030 = .ok ordsOff ∧
      ∀ i, i < ([⟨[70], 1, some 0, 0x140001050⟩] : List ExportEntry).length →
        ∃ nameRva ordinal frva en,
          readU32? pE.buffer (namesOff + 4 * i) = .ok nameRva ∧
          readU16? pE.buffer (ordsOff + 2 * i) = .ok ordinal ∧
          readU32? pE.buffer (fnsOff + 4 * ordinal) = .ok frva ∧
          ([⟨[70], 1, some 0, 0x140001050⟩] : List ExportEntry).get? i = some en ∧
          en.public_ordinal = (ordinal + 1) % 2 ^ 32 ∧
          en.forwarder_ordinal = (if 0x1000 ≤ frva ∧
              frva < (0x1000 + 0x100) % 2 ^ 32 then some ordinal else none) ∧
          en.address = (if frva = 0 then 0
            else (pE.get_image_base + frva) % 2 ^ 64)) := by
  have h := get_export_directory_entries pE ⟨0, 1, 1, 1, 0x1028, 0x102C, 0x1030⟩
    [⟨[70], 1, some 0, 0x140001050⟩] ⟨0x1000, 0x100⟩ (by decide) (by decide) (by decide)
  exact ⟨by decide, h.1, h.2⟩

/-- C1 counterexample: in the concrete export image, the single entry's
function RVA 0x1050 lies inside the export directory range [0x1000, 0x1100);
the entry is marked as a forwarder (forwarder_ordinal = some 0) yet its
reported address is 0x140001050, not zero. -/
theorem forwarder_address_not_zero :
    (parse bufE).isOk = true ∧
    (pE.get_export_directory).toOption.map Prod.snd
      = some [⟨[70], 1, some 0, 0x140001050⟩] ∧
    pE.pe_info.data_directories.getD 0 ⟨0, 0⟩ = ⟨0x1000, 0x100⟩ ∧
    readU32? pE.buffer 408 = .ok 0x1050 ∧
    (0x1000 ≤ 0x1050 ∧ 0x1050 < 0x1000 + 0x100) ∧
    (0x140001050 : Nat) ≠ 0 := by
  refine ⟨by decide, by decide, by decide, by decide, by decide, by decide⟩

/-- C1 (amended): every emitted export entry whose function RVA lies within
the export directory's own range is marked as a forwarder with
forwarder_ordinal = its table ordinal, and its reported absolute address is
effective image_base + function_rva (uint64), not zero. -/
theorem forwarder_marking_and_address (p : Parser) (et : ExportDirectory)
    (entries : List ExportEntry) (dir : DataDirectory)
    (hdir : p.pe_info.data_directories.getD 0 ⟨0, 0⟩ = dir)
    (hva : ¬ dir.virtual_address = 0)
    (hok : p.get_export_directory = .ok (et, entries)) :
    ∃ fnsOff namesOff ordsOff,
      rva_to_offset p.pe_info.section_headers et.address_of_functions = .ok fnsOff ∧
      rva_to_offset p.pe_info.section_headers et.address_of_names = .ok namesOff ∧
      rva_to_offset p.pe_info.section_headers et.address_of_name_ordinals = .ok ordsOff ∧
      ∀ i, i < entries.length →
        ∃ ordinal frva en,
          readU16? p.buffer (ordsOff + 2 * i) = .ok ordinal ∧
          readU32? p.buffer (fnsOff + 4 * ordinal) = .ok frva ∧
          entries.get? i = some en ∧
          (dir.virtual_address ≤ frva ∧ frva < (dir.virtual_address + dir.size) % 2 ^ 32 →
            en.forwarder_ordinal = some ordinal ∧
            en.address = (p.get_image_base + frva) % 2 ^ 64) := by
  obtain ⟨_, fnsOff, namesOff, ordsOff, h4, h5, h6, hind⟩ :=
    export_directory_core p et entries dir hdir hva hok
  refine ⟨fnsOff, namesOff, ordsOff, h4, h5, h6, ?_⟩
  intro i hi
  obtain ⟨nameRva, ordinal, frva, en, _, hr2, hr3, hget, _, hf2, hf3⟩ := hind i hi
  refine ⟨ordinal, frva, en, hr2, hr3, hget, ?_⟩
  intro hin
  constructor
  · rw [hf2, if_pos hin]
  · have hfz : frva ≠ 0 := by
      intro hz
      rw [hz] at hin
      omega
    rw [hf3, if_neg hfz]

/-- C1 witness (for the amended claim): applied to the concrete export image
at index 0 (function RVA 0x1050 in range), giving forwarder_ordinal = some 0
and address (image base + 0x1050) mod 2^64 = 0x140001050. -/
theorem forwarder_marking_and_address_witness :
    ∃ fnsOff namesOff ordsOff,
      rva_to_offset pE.pe_info.section_headers 0x1028 = .ok fnsOff ∧
      rva_to_offset pE.pe_info.section_headers 0x102C = .ok namesOff ∧
      rva_to_offset pE.pe_info.section_headers 0x1030 = .ok ordsOff ∧
      ∀ i, i < ([⟨[70], 1, some 0, 0x140001050⟩] : List ExportEntry).length →
        ∃ ordinal frva en,
          readU16? pE.buffer (ordsOff + 2 * i) = .ok ordinal ∧
          readU32? pE.buffer (fnsOff + 4 * ordinal) = .ok frva ∧
          ([⟨[70], 1, some 0, 0x140001050⟩] : List ExportEntry).get? i = some en ∧
          (0x1000 ≤ frva ∧ frva < (0x1000 + 0x100) % 2 ^ 32 →
            en.forwarder_ordinal = some ordinal ∧
            en.address = (pE.get_image_base + frva) % 2 ^ 64) :=
  forwarder_marking_and_address pE ⟨0, 1, 1, 1, 0x1028, 0x102C, 0x1030⟩
    [⟨[70], 1, some 0, 0x140001050⟩] ⟨0x1000, 0x100⟩ (by decide) (by decide) (by decide)

/-- C9: the raw-region copies perform no bounds check, and nothing guarantees
they stay inside the buffer: this 368-byte image parses, get_section_data
selects its .text section without failing, and the copied index range
[512, 512 + 4096) runs 4240 bytes past the buffer end (an out-of-bounds read,
undefined behaviour in the source). -/
theorem section_copy_out_of_bounds :
    (parse bufS).isOk = true ∧
    pS.get_section_data_range (ascii ".text") = .ok (512, 4096) ∧
    pS.buffer.length = 368 ∧
    pS.buffer.length < 512 + 4096 := by
  refine ⟨by decide, by decide, by decide, by decide⟩

end PE
